import Mathlib

/-! # Multiple Tab Handler: selection model and context menu

A shallow embedding of `src/common/selection.js`,
`src/webextensions/common/shared-state.js`,
`src/webextensions/background/context-menu.js` and of `handleMissingReceiverError` and the
defaults of `configs` in `src/common/common.js`.

Conventions of the embedding.

* A JavaScript string is a `List Char` (`JSString`), so that `split`, `charAt`, `indexOf`
  and the anchored regular expressions of the source are structural functions.
* A plain object used as a table keyed by tab id (`mTabs`) is an association list
  `List (Nat × Tab)`; a new integer-like key is inserted at its ascending position, which is
  the enumeration order of `Object.keys` / `Object.values`.
* Calls into the host (`browser.*`), event dispatch and timers do not change the data that is
  modelled; where the code reads host data (the tabs of the window, the other windows, the
  localized title of an item) that data is an argument.
-/

set_option autoImplicit false

namespace MTH

/-- A JavaScript string, as the list of its characters. -/
abbrev JSString := List Char

/-- The fields of a `tabs.Tab` object of the host which the sources read. `muted` is
`tab.mutedInfo.muted`; `states` is the list Tree Style Tab attaches to a tab and is absent
(`none`) for a plain tab. -/
structure Tab where
  id : Nat
  index : Nat
  windowId : Nat
  active : Bool
  highlighted : Bool
  pinned : Bool
  muted : Bool
  discarded : Bool
  states : Option (List JSString)
  deriving DecidableEq, Repr

/-- The object `mTabs`: own properties keyed by tab id, in enumeration order. -/
abbrev TabMap := List (Nat × Tab)

namespace TabMap

/-- The test `id in this.mTabs`. -/
def has (m : TabMap) (k : Nat) : Bool :=
  m.any (fun e => e.1 == k)

/-- The read `this.mTabs[id]` (`none` is `undefined`). -/
def get? (m : TabMap) (k : Nat) : Option Tab :=
  (m.find? (fun e => e.1 == k)).map (fun e => e.2)

/-- The write `this.mTabs[id] = tab`: an existing property keeps its place, a new integer key
is enumerated in ascending position. -/
def put : TabMap → Nat → Tab → TabMap
  | [], k, v => [(k, v)]
  | (k', v') :: rest, k, v =>
    if k = k' then (k, v) :: rest
    else if k < k' then (k, v) :: (k', v') :: rest
    else (k', v') :: put rest k v

/-- The statement `delete this.mTabs[id]`. -/
def delete (m : TabMap) (k : Nat) : TabMap :=
  m.filter (fun e => e.1 != k)

/-- The array `Object.keys(this.mTabs).map(id => parseInt(id))`. -/
def keys (m : TabMap) : List Nat := m.map (fun e => e.1)

/-- The array `Object.values(this.mTabs)`. -/
def values (m : TabMap) : List Tab := m.map (fun e => e.2)

end TabMap

/-- The data fields of a `Selection` instance (`onChange` is an event dispatcher of the host
library and holds no selection data). -/
structure Selection where
  mTabs : TabMap
  mTargetWindow : Nat
  mLastClickedTab : Option Tab
  deriving DecidableEq, Repr

/-- The argument of `apply`: an object in which each of the three properties may be missing.
For `lastClickedTab` the outer `none` is a missing property and `some none` is `null`. -/
structure SerializedSelection where
  tabs : Option TabMap
  targetWindow : Option Nat
  lastClickedTab : Option (Option Tab)
  deriving DecidableEq, Repr

namespace Selection

/-- The constructor: `windowId` is `none` for `undefined` / `null`; a falsy id throws. -/
def create (windowId : Option Nat) : Except String Selection :=
  match windowId with
  | none => .error "Selection must have a window ID"
  | some w =>
    if w = 0 then .error "Selection must have a window ID"
    else .ok { mTabs := [], mTargetWindow := w, mLastClickedTab := none }

/-- The getter `windowId`. -/
def windowId (s : Selection) : Nat := s.mTargetWindow

/-- The loop body of the branch `selected` of `set`. -/
def selectStep (m : TabMap) (tab : Tab) : TabMap :=
  if m.has tab.id then m else m.put tab.id tab

/-- The loop body of the branch `!selected` of `set`. -/
def deselectStep (m : TabMap) (tab : Tab) : TabMap :=
  if !m.has tab.id then m else m.delete tab.id

/-- The method `set(tabs, selected, options)` on an array of tabs (a single tab is first
wrapped into a one-element array). The options only choose which host calls are made
(title marker, TST message, `onChange` dispatch, timer). -/
def set (s : Selection) (tabs : List Tab) (selected : Bool) : Selection :=
  if tabs.length == 0 then s
  else if selected then { s with mTabs := tabs.foldl selectStep s.mTabs }
  else { s with mTabs := tabs.foldl deselectStep s.mTabs }

/-- The method `serialize()`. -/
def serialize (s : Selection) : SerializedSelection :=
  { tabs := some s.mTabs
    targetWindow := some s.mTargetWindow
    lastClickedTab := some s.mLastClickedTab }

/-- The method `apply(foreignSelection)`. -/
def apply (s : Selection) (foreignSelection : SerializedSelection) : Selection :=
  let oldTabs := s.mTabs
  let s1 : Selection :=
    match foreignSelection.tabs with
    | some t => { s with mTabs := t }
    | none => s
  let s2 : Selection :=
    match foreignSelection.lastClickedTab with
    | some l => { s1 with mLastClickedTab := l }
    | none => s1
  let newlySelected := s2.mTabs.values.filter (fun tab => !oldTabs.has tab.id)
  let deselected := oldTabs.values.filter (fun tab => !s2.mTabs.has tab.id)
  let s3 := s2.set newlySelected true
  s3.set deselected false

/-- The method `getSelectedTabIds()`. -/
def getSelectedTabIds (s : Selection) : List Nat := s.mTabs.keys

/-- The method `getSelectedTabs()`. -/
def getSelectedTabs (s : Selection) : List Tab := s.mTabs.values

/-- The method `count()`. -/
def count (s : Selection) : Nat := s.mTabs.keys.length

/-- The method `has()`. -/
def has (s : Selection) : Bool := decide (s.count > 0)

/-- The method `contains(tabOrTabId)`, on the id. -/
def contains (s : Selection) (id : Nat) : Bool := s.mTabs.has id

/-- The method `setLastClickedTab(tab)`. -/
def setLastClickedTab (s : Selection) (tab : Option Tab) : Selection :=
  { s with mLastClickedTab := tab }

/-- The method `getLastClickedTab()`. -/
def getLastClickedTab (s : Selection) : Option Tab := s.mLastClickedTab

/-- The method `clear(options)`. -/
def clear (s : Selection) : Selection :=
  let tabs := s.mTabs.keys.filterMap (fun id => s.mTabs.get? id)
  let s1 := s.set tabs false
  { s1 with mTabs := [], mLastClickedTab := none }

/-- The method `invert()`; `tabs` is the result of `getAllTabs()`. -/
def invert (s : Selection) (tabs : List Tab) : Selection :=
  let selectedIds := s.getSelectedTabIds
  let newSelected := tabs.filter (fun tab => !selectedIds.contains tab.id)
  let oldSelected := tabs.filter (fun tab => selectedIds.contains tab.id)
  (s.set oldSelected false).set newSelected true

/-- The method `syncHighlightedToSelected()`; `tabs` is the result of `getAllTabs()`. -/
def syncHighlightedToSelected (s : Selection) (tabs : List Tab) : Selection :=
  if (tabs.filter (fun tab => tab.highlighted)).length == 1 then s.clear
  else
    let alreadySelected := s.getSelectedTabIds
    let newlySelected :=
      tabs.filter (fun tab => tab.highlighted && !alreadySelected.contains tab.id)
    let deselected :=
      tabs.filter (fun tab => !tab.highlighted && alreadySelected.contains tab.id)
    (s.set newlySelected true).set deselected false

/-- The method `syncSelectedToHighlighted()`: the value of the property `tabs` of the object
handed to `browser.tabs.highlight`, or `none` when the host has no such function and the
method returns before calling it. `tabs` is the result of `getAllTabs()`. -/
def syncSelectedToHighlighted (s : Selection) (highlightIsFunction : Bool)
    (tabs : List Tab) : Option (List Nat) :=
  if !highlightIsFunction then none
  else
    let selected := s.getSelectedTabIds
    let highlighted := tabs.filter (fun tab => selected.contains tab.id)
    let highlightedIndices :=
      (highlighted.filter (fun tab => !tab.active)).map (fun tab => tab.index)
    let activeIndices := (tabs.filter (fun tab => tab.active)).map (fun tab => tab.index)
    some (activeIndices ++ highlightedIndices)

end Selection

/-- The selections that the operations of the class produce from a fresh instance. -/
inductive Reachable : Selection → Prop
  | create (windowId : Option Nat) (s : Selection) :
      Selection.create windowId = .ok s → Reachable s
  | set (s : Selection) (tabs : List Tab) (selected : Bool) :
      Reachable s → Reachable (s.set tabs selected)
  | clear (s : Selection) : Reachable s → Reachable s.clear
  | invert (s : Selection) (tabs : List Tab) : Reachable s → Reachable (s.invert tabs)
  | setLastClickedTab (s : Selection) (tab : Option Tab) :
      Reachable s → Reachable (s.setLastClickedTab tab)

/-- Every property of the table is named by the id of the tab it holds. -/
def KeysMatch (m : TabMap) : Prop := ∀ e ∈ m, e.2.id = e.1

/-- The object built by `serialize()` of `shared-state.js`; `D` is the serialized drag
selection, which belongs to a module outside this development. -/
structure SharedState (D : Type) where
  selection : SerializedSelection
  dragSelection : D

/-- The function `serialize()` of `shared-state.js`. -/
def SharedState.serialize {D : Type} (sel : Selection) (drag : D) : SharedState D :=
  { selection := sel.serialize, dragSelection := drag }

/-- The function `apply(selections)` of `shared-state.js`, on the selection. -/
def SharedState.apply {D : Type} (sel : Selection) (selections : SharedState D) : Selection :=
  sel.apply selections.selection

/-- A tab of window 1 with the given id, index, `active`, `highlighted` and `pinned` flags,
not muted, not discarded and without a states list; used for the concrete instances below. -/
def sampleTab (id index : Nat) (active highlighted pinned : Bool) : Tab :=
  { id := id, index := index, windowId := 1, active := active, highlighted := highlighted,
    pinned := pinned, muted := false, discarded := false, states := none }

/-- A fresh selection of window 1, as the constructor leaves it. -/
def freshSelection : Selection :=
  { mTabs := [], mTargetWindow := 1, mLastClickedTab := none }

/-! ### Context menu: visibilities (`context-menu.js`) -/

/-- The counters of the loop of `getContextMenuItemVisibilities`. -/
structure Counts where
  pinnedCount : Nat
  mutedCount : Nat
  suspendedCount : Nat
  lockedCount : Nat
  protectedCount : Nat
  frozenCount : Nat
  deriving DecidableEq, Repr

/-- The condition `tab.states && tab.states.indexOf(name) < 0`. -/
def statesLack (tab : Tab) (name : JSString) : Bool :=
  match tab.states with
  | none => false
  | some states => !states.contains name

/-- One turn of the loop `for (const id of tabIds)`, once `mSelection.tabs[id]` is read. -/
def countStep (c : Counts) (tab : Tab) : Counts :=
  { pinnedCount := if tab.pinned then c.pinnedCount + 1 else c.pinnedCount
    mutedCount := if tab.muted then c.mutedCount + 1 else c.mutedCount
    suspendedCount := if tab.discarded then c.suspendedCount + 1 else c.suspendedCount
    lockedCount :=
      if statesLack tab "locked".toList then c.lockedCount + 1 else c.lockedCount
    protectedCount :=
      if statesLack tab "protected".toList then c.protectedCount + 1 else c.protectedCount
    frozenCount :=
      if statesLack tab "frozen".toList then c.frozenCount + 1 else c.frozenCount }

/-- The loop `for (const id of tabIds)`; an id without entry in `mSelection.tabs` makes the
read of `tab.pinned` throw (`none`). -/
def countTabs (selectionTabs : TabMap) : List Nat → Counts → Option Counts
  | [], c => some c
  | id :: rest, c =>
    match selectionTabs.get? id with
    | none => none
    | some tab => countTabs selectionTabs rest (countStep c tab)

/-- The object returned by `getContextMenuItemVisibilities`. -/
structure Visibilities where
  reloadTabs : Bool
  bookmarkTabs : Bool
  removeBookmarkFromTabs : Bool
  duplicateTabs : Bool
  pinTabs : Bool
  unpinTabs : Bool
  muteTabs : Bool
  unmuteTabs : Bool
  moveToNewWindow : Bool
  moveToOtherWindow : Bool
  removeTabs : Bool
  removeOther : Bool
  clipboard : Bool
  saveTabs : Bool
  printTabs : Bool
  freezeTabs : Bool
  unfreezeTabs : Bool
  protectTabs : Bool
  unprotectTabs : Bool
  lockTabs : Bool
  unlockTabs : Bool
  groupTabs : Bool
  suspendTabs : Bool
  resumeTabs : Bool
  selectAll : Bool
  select : Bool
  unselect : Bool
  invertSelection : Bool
  deriving DecidableEq, Repr

/-- A `windows.Window` of the host: its id and its title (`none` when the host gives none). -/
structure Window where
  id : Nat
  title : Option JSString
  deriving DecidableEq, Repr

/-- The function `getContextMenuItemVisibilities(aParams)`. `aTab` and `otherWindows` are the
two properties of `aParams`; `allTabs` is the result of `Commands.getAllTabs()`, `tabIds` the
result of `Commands.getSelectedTabIds()` and `selectionTabs` the object `mSelection.tabs`, all
three read from modules outside this development. -/
def getContextMenuItemVisibilities (aTab : Option Tab) (otherWindows : List Window)
    (allTabs : List Tab) (tabIds : List Nat) (selectionTabs : TabMap) :
    Option Visibilities :=
  match countTabs selectionTabs tabIds ⟨0, 0, 0, 0, 0, 0⟩ with
  | none => none
  | some c =>
    let n := tabIds.length
    some
      { reloadTabs := decide (n > 0)
        bookmarkTabs := decide (n > 0)
        removeBookmarkFromTabs := decide (n > 0)
        duplicateTabs := decide (n > 0)
        pinTabs := decide (n > 0) && decide (c.pinnedCount < n)
        unpinTabs := decide (n > 0) && decide (c.pinnedCount > 0)
        muteTabs := decide (n > 0) && decide (c.mutedCount < n)
        unmuteTabs := decide (n > 0) && decide (c.mutedCount > 0)
        moveToNewWindow := decide (n > 0)
        moveToOtherWindow := decide (n > 0) && decide (otherWindows.length > 0)
        removeTabs := decide (n > 0)
        removeOther := decide (n > 0) && decide (n < allTabs.length)
        clipboard := decide (n > 0)
        saveTabs := decide (n > 0)
        printTabs := decide (n > 0)
        freezeTabs := decide (n > 0) && decide (c.frozenCount < n)
        unfreezeTabs := decide (n > 0) && decide (c.frozenCount > 0)
        protectTabs := decide (n > 0) && decide (c.protectedCount < n)
        unprotectTabs := decide (n > 0) && decide (c.protectedCount > 0)
        lockTabs := decide (n > 0) && decide (c.lockedCount < n)
        unlockTabs := decide (n > 0) && decide (c.lockedCount > 0)
        groupTabs := decide (n > 1)
        suspendTabs := decide (n > 0) && decide (c.suspendedCount < n)
        resumeTabs := decide (n > 0) && decide (c.suspendedCount > 0)
        selectAll := decide (n < allTabs.length)
        select :=
          match aTab with
          | none => true
          | some tab => !tabIds.contains tab.id
        unselect :=
          match aTab with
          | none => true
          | some tab => tabIds.contains tab.id
        invertSelection := decide (n > 0) }

/-- A tab with id 1 that is not pinned and carries the states list `['locked']`. -/
def lockedTab : Tab :=
  { id := 1, index := 0, windowId := 1, active := true, highlighted := true, pinned := false,
    muted := false, discarded := false, states := some ["locked".toList] }

/-! ### Context menu: strings and tables -/

/-- The conversion of a non-negative integer to a string, as in a template literal. -/
def numberToString (n : Nat) : JSString := Nat.toDigits 10 n

/-- The call `parseInt(s)` on a string of decimal digits. -/
def parseInt (s : JSString) : Nat :=
  s.foldl (fun acc c => acc * 10 + (c.toNat - '0'.toNat)) 0

/-- The method `split('/')`. -/
def splitSlash : JSString → List JSString
  | [] => [[]]
  | c :: cs =>
    if c = '/' then [] :: splitSlash cs
    else
      match splitSlash cs with
      | [] => [[c]]
      | seg :: rest => (c :: seg) :: rest

/-- A match of the anchored literal `/^pattern/`: the rest of the string behind the literal,
or `none` when the string does not start with it. -/
def stripStart : JSString → JSString → Option JSString
  | [], s => some s
  | _ :: _, [] => none
  | p :: ps, c :: cs => if p = c then stripStart ps cs else none

/-- A match of `/^([0-9]+):/`: the digits captured and the rest of the string behind the
colon, or `none` when there is no match. -/
def matchDigitsColon (s : JSString) : Option (JSString × JSString) :=
  let digits := s.takeWhile Char.isDigit
  match digits, s.dropWhile Char.isDigit with
  | [], _ => none
  | _ :: _, ':' :: rest => some (digits, rest)
  | _ :: _, _ => none

/-- The call `id.replace(/^clipboard\/clipboard:[0-9]+:/, '')`. -/
def formatTitle (id : JSString) : JSString :=
  match stripStart "clipboard/clipboard:".toList id with
  | none => id
  | some rest =>
    match matchDigitsColon rest with
    | none => id
    | some (_, title) => title

/-- The call `id.replace(/[^a-z0-9@_]/gi, '_')`, one UTF-16 code unit at a time. -/
def sanitizeId (id : JSString) : JSString :=
  id.flatMap (fun c =>
    if c.isAlphanum || c == '@' || c == '_' then [c]
    else if c.val > 0xFFFF then ['_', '_']
    else ['_'])

/-- The names every plain object inherits from `Object.prototype`. -/
def objectPrototypeNames : List JSString :=
  ["constructor", "__defineGetter__", "__defineSetter__", "hasOwnProperty",
    "__lookupGetter__", "__lookupSetter__", "isPrototypeOf", "propertyIsEnumerable",
    "toString", "valueOf", "__proto__", "toLocaleString"].map String.toList

/-- The read `table[key]` of an own property of a plain object keyed by strings. -/
def tableGet {β : Type} (table : List (JSString × β)) (key : JSString) : Option β :=
  (table.find? (fun e => e.1 == key)).map (fun e => e.2)

/-- The write `table[key] = value`: an existing property keeps its place, a new one is
enumerated last. -/
def tableSet {β : Type} : List (JSString × β) → JSString → β → List (JSString × β)
  | [], key, value => [(key, value)]
  | (k, v) :: rest, key, value =>
    if k = key then (key, value) :: rest else (k, v) :: tableSet rest key value

/-- The statement `delete table[key]`. -/
def tableDelete {β : Type} (table : List (JSString × β)) (key : JSString) :
    List (JSString × β) :=
  table.filter (fun e => e.1 != key)

/-- Why a call does not return a value: the code throws a `TypeError` (a property of
`undefined` or `null` is read), or a key that is a name inherited from `Object.prototype`
makes the code use the inherited value itself or write the property `__proto__`, for which
the embedding gives no result. -/
inductive Fault where
  | typeError
  | inheritedName
  deriving DecidableEq, Repr

/-! ### Context menu: configuration -/

/-- An entry of the array `configs.copyToClipboardFormats`. -/
structure ClipboardFormat where
  label : JSString
  format : JSString
  deriving DecidableEq, Repr

/-- The value of `configs.copyToClipboardFormats`: an array of entries, or (legacy) an object
that maps a label to a format. -/
inductive ClipboardFormats where
  | array (items : List ClipboardFormat)
  | object (entries : List (JSString × JSString))
  deriving DecidableEq, Repr

/-- The keys of `configs` (`common.js`) the context menu reads. -/
structure Configs where
  context_reloadTabs : Bool
  context_bookmarkTabs : Bool
  context_removeBookmarkFromTabs : Bool
  context_duplicateTabs : Bool
  context_pinTabs : Bool
  context_unpinTabs : Bool
  context_muteTabs : Bool
  context_unmuteTabs : Bool
  context_moveToNewWindow : Bool
  context_moveToOtherWindow : Bool
  context_removeTabs : Bool
  context_removeOther : Bool
  context_clipboard : Bool
  context_saveTabs : Bool
  context_printTabs : Bool
  context_freezeTabs : Bool
  context_unfreezeTabs : Bool
  context_protectTabs : Bool
  context_unprotectTabs : Bool
  context_lockTabs : Bool
  context_unlockTabs : Bool
  context_groupTabs : Bool
  context_suspendTabs : Bool
  context_resumeTabs : Bool
  context_selectAll : Bool
  context_select : Bool
  context_unselect : Bool
  context_invertSelection : Bool
  copyToClipboardFormats : ClipboardFormats
  cachedExternalAddons : List (JSString × Bool)
  deriving DecidableEq, Repr

/-- The defaults of `common.js`, for a given list of clipboard formats. -/
def defaultConfigs (formats : ClipboardFormats) : Configs :=
  { context_reloadTabs := true
    context_bookmarkTabs := true
    context_removeBookmarkFromTabs := false
    context_duplicateTabs := true
    context_pinTabs := true
    context_unpinTabs := true
    context_muteTabs := true
    context_unmuteTabs := true
    context_moveToNewWindow := true
    context_moveToOtherWindow := true
    context_removeTabs := true
    context_removeOther := true
    context_clipboard := true
    context_saveTabs := true
    context_printTabs := false
    context_freezeTabs := false
    context_unfreezeTabs := false
    context_protectTabs := false
    context_unprotectTabs := false
    context_lockTabs := false
    context_unlockTabs := false
    context_groupTabs := false
    context_suspendTabs := true
    context_resumeTabs := true
    context_selectAll := true
    context_select := true
    context_unselect := true
    context_invertSelection := true
    copyToClipboardFormats := formats
    cachedExternalAddons := [] }

/-- The read of the key `context_` followed by `id` in `configs`: `none` is `undefined`. -/
def Configs.context (c : Configs) (id : JSString) : Option Bool :=
  tableGet
    [("reloadTabs".toList, c.context_reloadTabs),
      ("bookmarkTabs".toList, c.context_bookmarkTabs),
      ("removeBookmarkFromTabs".toList, c.context_removeBookmarkFromTabs),
      ("duplicateTabs".toList, c.context_duplicateTabs),
      ("pinTabs".toList, c.context_pinTabs),
      ("unpinTabs".toList, c.context_unpinTabs),
      ("muteTabs".toList, c.context_muteTabs),
      ("unmuteTabs".toList, c.context_unmuteTabs),
      ("moveToNewWindow".toList, c.context_moveToNewWindow),
      ("moveToOtherWindow".toList, c.context_moveToOtherWindow),
      ("removeTabs".toList, c.context_removeTabs),
      ("removeOther".toList, c.context_removeOther),
      ("clipboard".toList, c.context_clipboard),
      ("saveTabs".toList, c.context_saveTabs),
      ("printTabs".toList, c.context_printTabs),
      ("freezeTabs".toList, c.context_freezeTabs),
      ("unfreezeTabs".toList, c.context_unfreezeTabs),
      ("protectTabs".toList, c.context_protectTabs),
      ("unprotectTabs".toList, c.context_unprotectTabs),
      ("lockTabs".toList, c.context_lockTabs),
      ("unlockTabs".toList, c.context_unlockTabs),
      ("groupTabs".toList, c.context_groupTabs),
      ("suspendTabs".toList, c.context_suspendTabs),
      ("resumeTabs".toList, c.context_resumeTabs),
      ("selectAll".toList, c.context_selectAll),
      ("select".toList, c.context_select),
      ("unselect".toList, c.context_unselect),
      ("invertSelection".toList, c.context_invertSelection)] id

/-- The read `visibilities[id]` of an own property: `none` when `id` is no key of the
object. -/
def Visibilities.get? (v : Visibilities) (id : JSString) : Option Bool :=
  tableGet
    [("reloadTabs".toList, v.reloadTabs),
      ("bookmarkTabs".toList, v.bookmarkTabs),
      ("removeBookmarkFromTabs".toList, v.removeBookmarkFromTabs),
      ("duplicateTabs".toList, v.duplicateTabs),
      ("pinTabs".toList, v.pinTabs),
      ("unpinTabs".toList, v.unpinTabs),
      ("muteTabs".toList, v.muteTabs),
      ("unmuteTabs".toList, v.unmuteTabs),
      ("moveToNewWindow".toList, v.moveToNewWindow),
      ("moveToOtherWindow".toList, v.moveToOtherWindow),
      ("removeTabs".toList, v.removeTabs),
      ("removeOther".toList, v.removeOther),
      ("clipboard".toList, v.clipboard),
      ("saveTabs".toList, v.saveTabs),
      ("printTabs".toList, v.printTabs),
      ("freezeTabs".toList, v.freezeTabs),
      ("unfreezeTabs".toList, v.unfreezeTabs),
      ("protectTabs".toList, v.protectTabs),
      ("unprotectTabs".toList, v.unprotectTabs),
      ("lockTabs".toList, v.lockTabs),
      ("unlockTabs".toList, v.unlockTabs),
      ("groupTabs".toList, v.groupTabs),
      ("suspendTabs".toList, v.suspendTabs),
      ("resumeTabs".toList, v.resumeTabs),
      ("selectAll".toList, v.selectAll),
      ("select".toList, v.select),
      ("unselect".toList, v.unselect),
      ("invertSelection".toList, v.invertSelection)] id

/-! ### Context menu: building the items -/

/-- The property `type` of a menu item. -/
inductive ItemType where
  | normal
  | separator
  deriving DecidableEq, Repr

/-- The object `params` that `registerItem` builds and stores in `mActiveItems`; `parentId`
is `none` when the property is not set. -/
structure MenuParams where
  id : JSString
  type : ItemType
  title : Option JSString
  contexts : List JSString
  parentId : Option JSString
  deriving DecidableEq, Repr

/-- The properties of `aOptions` that `registerItem` reads; `title` is `none` when there is
none. -/
structure ItemOptions where
  title : Option JSString
  always : Bool
  deriving DecidableEq, Repr

/-- The local variables of `refreshItems` that `registerItem` updates, with `mActiveItems`. -/
structure RefreshState where
  mActiveItems : List MenuParams
  separatorsCount : Nat
  normalItemAppearedIn : List (JSString × Bool)
  createdItems : List JSString
  nextSeparatorIn : List (JSString × MenuParams)
  deriving DecidableEq, Repr

/-- What `registerItem` reads and does not change: `visibilities`, `hasSelection`, `configs`
and the host function `browser.i18n.getMessage`. -/
structure MenuEnv where
  visibilities : Visibilities
  hasSelection : Bool
  configs : Configs
  getMessage : JSString → JSString

/-- The array `mItems`. -/
def mItems : List JSString :=
  "selection".toList ::
    (["reloadTabs", "bookmarkTabs", "removeBookmarkFromTabs", "-----------------",
      "duplicateTabs", "-----------------", "pinTabs", "unpinTabs", "muteTabs", "unmuteTabs",
      "moveToNewWindow", "moveToOtherWindow", "-----------------", "removeTabs", "removeOther",
      "-----------------", "clipboard", "saveTabs", "-----------------", "printTabs",
      "-----------------", "freezeTabs", "unfreezeTabs", "protectTabs", "unprotectTabs",
      "lockTabs", "unlockTabs", "-----------------", "groupTabs", "-----------------",
      "suspendTabs", "resumeTabs", "-----------------", "selectAll", "select", "unselect",
      "invertSelection", "-----------------"].map
      (fun aId => "selection/".toList ++ aId.toList))

/-- Whether a title is truthy: present and not the empty string. -/
def truthyTitle (title : Option JSString) : Bool :=
  match title with
  | none => false
  | some t => t != []

/-- Whether a key is a name that the empty tables of `refreshItems` inherit from
`Object.prototype`: the test `key in table` is then true and the read `table[key]` gives a
truthy value although the table has no such property of its own. -/
def inheritedName (key : JSString) : Bool := objectPrototypeNames.contains key

/-- The closure `registerItem(id, aOptions)` of `refreshItems`. For a parent id that is a name
inherited from `Object.prototype`, the test `parentId in createdItems` succeeds and
`normalItemAppearedIn[parentId]` is truthy until the closure writes the property. The result
is `Fault.inheritedName` where the closure would write the property `__proto__` of a table or
would push the inherited value of `nextSeparatorIn[parentId]` into `mActiveItems`. The source
goes on in both places; the embedding stops there, because `nextSeparatorIn` then has another
prototype or `mActiveItems` holds a value that is no `params` object. -/
def registerItem (env : MenuEnv) (st : RefreshState) (fullId : JSString)
    (aOptions : ItemOptions) : Except Fault RefreshState :=
  let parts := splitSlash fullId
  let id := parts.getLast?.getD []
  let parentId := parts.dropLast.getLast?.getD []
  if parentId != [] && !(st.createdItems.contains parentId || inheritedName parentId) then
    .ok st
  else if id.head? == some '-' then
    if !(tableGet st.normalItemAppearedIn parentId).getD (inheritedName parentId) then .ok st
    else if parentId == "__proto__".toList then .error .inheritedName
    else
      let id := "separator".toList ++ numberToString st.separatorsCount
      let params : MenuParams :=
        { id := id, type := .separator, title := none,
          contexts := ["page".toList, "tab".toList],
          parentId := if parentId != [] then some parentId else none }
      .ok
        { mActiveItems := st.mActiveItems
          separatorsCount := st.separatorsCount + 1
          normalItemAppearedIn := tableSet st.normalItemAppearedIn parentId false
          createdItems := if st.createdItems.contains id then st.createdItems
            else st.createdItems ++ [id]
          nextSeparatorIn := tableSet st.nextSeparatorIn parentId params }
  else if env.visibilities.get? id == some false then .ok st
  else if !aOptions.always && !env.hasSelection then .ok st
  else if env.configs.context id == some false then .ok st
  else if (tableGet st.nextSeparatorIn parentId).isNone && inheritedName parentId then
    .error .inheritedName
  else
    let title :=
      if truthyTitle aOptions.title then aOptions.title
      else some (env.getMessage ("context_".toList ++ sanitizeId id ++ "_label".toList))
    let params : MenuParams :=
      { id := id, type := .normal, title := title,
        contexts := ["page".toList, "tab".toList],
        parentId := if parentId != [] then some parentId else none }
    .ok
      { mActiveItems :=
          (match tableGet st.nextSeparatorIn parentId with
            | some separator => st.mActiveItems ++ [separator]
            | none => st.mActiveItems) ++ [params]
        separatorsCount := st.separatorsCount
        normalItemAppearedIn := tableSet st.normalItemAppearedIn parentId true
        createdItems := if st.createdItems.contains id then st.createdItems
          else st.createdItems ++ [id]
        nextSeparatorIn := tableDelete st.nextSeparatorIn parentId }

/-- A loop `for (const id of ...) await registerItem(id, options)`. -/
def registerAll (env : MenuEnv) :
    RefreshState → List (JSString × ItemOptions) → Except Fault RefreshState
  | st, [] => .ok st
  | st, (id, aOptions) :: rest =>
    match registerItem env st id aOptions with
    | .error e => .error e
    | .ok st1 => registerAll env st1 rest

/-- The array `formatIds`. In the source the filter reads the label at the index of the
mapped id, which is the label the id was built from. -/
def formatIds (formats : ClipboardFormats) : List JSString :=
  match formats with
  | .array items =>
    (items.enum.filter (fun e => e.2.label != [])).map
      (fun e => "clipboard/clipboard:".toList ++ numberToString e.1 ++ ":".toList ++ e.2.label)
  | .object entries =>
    (entries.enum.filter (fun e => e.2.1 != [])).map
      (fun e => "clipboard/clipboard:".toList ++ numberToString e.1 ++ ":".toList ++ e.2.1)

/-- A message another extension sends to register or remove a command: `type` is `none` when
the property is not a string. -/
structure ExternalMessage where
  type : Option JSString
  id : JSString
  title : Option JSString
  always : Bool
  deriving DecidableEq, Repr

/-- The four loops of `refreshItems` over `mItems`, `formatIds`, `otherWindows` and the keys
of `mExtraItems`, started from empty tables. -/
def buildItems (env : MenuEnv) (otherWindows : List Window)
    (mExtraItems : List (JSString × ExternalMessage)) : Except Fault RefreshState :=
  registerAll env
    { mActiveItems := [], separatorsCount := 0, normalItemAppearedIn := [],
      createdItems := [], nextSeparatorIn := [] }
    (mItems.map (fun id => (id, { title := none, always := false })) ++
      (formatIds env.configs.copyToClipboardFormats).map
        (fun id => (id, { title := some (formatTitle id), always := false })) ++
      otherWindows.map
        (fun window =>
          ("moveToOtherWindow/moveToOtherWindow:".toList ++ numberToString window.id,
            { title := window.title, always := false })) ++
      mExtraItems.map
        (fun e =>
          ("selection/extra:".toList ++ e.1, { title := e.2.title, always := e.2.always })))

/-- The variables of the module `context-menu.js`; `refreshReserved` tells whether the timer
`reserveRefreshItems.timeout` is pending. -/
structure MenuModule where
  mActiveItems : List MenuParams
  mExtraItems : List (JSString × ExternalMessage)
  mLastSelectedTabs : JSString
  refreshReserved : Bool
  deriving DecidableEq, Repr

/-- The function `refreshItems(aContextTab, aForce)` when no other refresh starts while this
one waits for the host. `serialized` is `JSON.stringify(mSelection.tabs)`; `otherWindows`,
`allTabs`, `tabIds` and `selectionTabs` are read from the host and from modules outside this
development. -/
def refreshItems (configs : Configs) (getMessage : JSString → JSString)
    (otherWindows : List Window) (allTabs : List Tab) (tabIds : List Nat)
    (selectionTabs : TabMap) (serialized : JSString) (m : MenuModule)
    (aContextTab : Option Tab) (aForce : Bool) : Except Fault MenuModule :=
  let m1 := { m with refreshReserved := false }
  if !aForce && serialized == m.mLastSelectedTabs then .ok m1
  else
    match getContextMenuItemVisibilities aContextTab otherWindows allTabs tabIds
        selectionTabs with
    | none => .error .typeError
    | some visibilities =>
      let env : MenuEnv :=
        { visibilities := visibilities, hasSelection := decide (tabIds.length > 0),
          configs := configs, getMessage := getMessage }
      match buildItems env otherWindows m.mExtraItems with
      | .error e => .error e
      | .ok st =>
        .ok { m1 with mActiveItems := st.mActiveItems, mLastSelectedTabs := serialized }

/-! ### Context menu: clicks and messages -/

/-- The case labels of the `switch` of `onClick`. -/
def onClickCases : List JSString :=
  ["reloadTabs", "bookmarkTabs", "removeBookmarkFromTabs", "duplicateTabs", "pinTabs",
    "unpinTabs", "muteTabs", "unmuteTabs", "moveToNewWindow", "removeTabs", "removeOther",
    "clipboard", "saveTabs", "printTabs", "freezeTabs", "unfreezeTabs", "protectTabs",
    "unprotectTabs", "lockTabs", "unlockTabs", "groupTabs", "suspendTabs", "resumeTabs",
    "selectAll", "select", "unselect", "invertSelection"].map String.toList

/-- What `onClick` does for a menu item id: the branch of a case label, a call of
`Commands.copyToClipboard(selectedTabIds, format)` with the chosen format (`none` is
`undefined`) or with the value that the object of formats inherits from `Object.prototype`
under a name, the branch `moveToOtherWindow:` with the rest of the id, a message
`kMTHAPI_INVOKE_SELECTED_TAB_COMMAND` to the owner of an extra item with the id of the
item, or nothing. -/
inductive ClickAction where
  | builtin (name : JSString)
  | copyToClipboard (format : Option JSString)
  | copyToClipboardInherited (name : JSString)
  | moveToOtherWindow (rest : JSString)
  | extra (owner id : JSString)
  | nothing
  deriving DecidableEq, Repr

/-- Whether a character is a line terminator, which `.` does not match in a regular
expression. -/
def isLineTerminator (c : Char) : Bool :=
  c.toNat == 0x0A || c.toNat == 0x0D || c.toNat == 0x2028 || c.toNat == 0x2029

/-- A match of `/^extra:([^:]+):(.+)$/` on the rest of the id behind `extra:`: the two
captures, or `none` when there is no match. The first capture is the longest run of
characters other than a colon and must be followed by a colon; the second is the whole rest,
which must not be empty and must hold no line terminator. -/
def matchOwnerAndId (s : JSString) : Option (JSString × JSString) :=
  let owner := s.takeWhile (fun c => c != ':')
  match owner, s.dropWhile (fun c => c != ':') with
  | [], _ => none
  | _ :: _, ':' :: id =>
    if id != [] && id.all (fun c => !isLineTerminator c) then some (owner, id) else none
  | _ :: _, _ => none

/-- The function `onClick(aInfo, aTab)`, as the branch taken for `aInfo.menuItemId`, the
format chosen in the branch `clipboard:` and the owner and id matched in the branch
`extra:`. An index above 2^53 is parsed exactly here and rounded by `parseInt`; no array has
an entry at either index. -/
def onClick (formats : ClipboardFormats) (menuItemId : JSString) : Except Fault ClickAction :=
  if onClickCases.contains menuItemId then .ok (.builtin menuItemId)
  else
    match stripStart "clipboard:".toList menuItemId with
    | some id =>
      match formats with
      | .array items =>
        match matchDigitsColon id with
        | none => .error .typeError
        | some (digits, _) =>
          match items.get? (parseInt digits) with
          | none => .error .typeError
          | some item => .ok (.copyToClipboard (some item.format))
      | .object entries =>
        let key :=
          match matchDigitsColon id with
          | none => id
          | some (_, rest) => rest
        match tableGet entries key with
        | some format => .ok (.copyToClipboard (some format))
        | none =>
          if objectPrototypeNames.contains key then .ok (.copyToClipboardInherited key)
          else .ok (.copyToClipboard none)
    | none =>
      match stripStart "moveToOtherWindow:".toList menuItemId with
      | some rest => .ok (.moveToOtherWindow rest)
      | none =>
        match stripStart "extra:".toList menuItemId with
        | some rest =>
          match matchOwnerAndId rest with
          | none => .error .typeError
          | some (owner, id) => .ok (.extra owner id)
        | none => .ok .nothing

/-- The constants of `constants.js` that `onMessageExternal` compares with. -/
structure Constants where
  kTST_ID : JSString
  kTSTAPI_CONTEXT_MENU_CLICK : JSString
  kMTHAPI_ADD_SELECTED_TAB_COMMAND : JSString
  kMTHAPI_REMOVE_SELECTED_TAB_COMMAND : JSString
  deriving DecidableEq, Repr

/-- The values the functions of this section evaluate to: `undefined`, a promise that
resolves to a boolean, or the promise returned by `onClick`. -/
inductive JSValue where
  | undefined
  | promiseOf (value : Bool)
  | clickPromise
  deriving DecidableEq, Repr

/-- How a call ends: it returns a value or it throws. -/
inductive Completion where
  | returned (value : JSValue)
  | threw (fault : Fault)
  deriving DecidableEq, Repr

/-- The function `reserveRefreshItems()`: it restarts the timer and has no `return`
statement, so the call evaluates to `undefined`. -/
def reserveRefreshItems (m : MenuModule) : MenuModule × JSValue :=
  ({ m with refreshReserved := true }, .undefined)

/-- The expression `value.then(() => result)`: reading `then` of `undefined` throws a
`TypeError`, a promise gives a promise of the result. -/
def thenResolve (value : JSValue) (result : Bool) : Completion :=
  match value with
  | .undefined => .threw .typeError
  | .promiseOf _ => .returned (.promiseOf result)
  | .clickPromise => .returned (.promiseOf result)

/-- The function `onTSTAPIMessage(aMessage)`. -/
def onTSTAPIMessage (k : Constants) (aMessage : ExternalMessage) : JSValue :=
  if aMessage.type == some k.kTSTAPI_CONTEXT_MENU_CLICK then .clickPromise else .undefined

/-- The function `onMessageExternal(aMessage, aSender)`: the module variables and `configs`
after the call, and how the call ends. `aMessage` is `none` for a falsy message and
`senderId` is `aSender.id`. -/
def onMessageExternal (k : Constants) (m : MenuModule) (configs : Configs)
    (aMessage : Option ExternalMessage) (senderId : JSString) :
    MenuModule × Configs × Completion :=
  match aMessage with
  | none => (m, configs, .returned .undefined)
  | some msg =>
    match msg.type with
    | none => (m, configs, .returned .undefined)
    | some type =>
      let fromTST :=
        if senderId = k.kTST_ID then onTSTAPIMessage k msg else JSValue.undefined
      if fromTST ≠ .undefined then (m, configs, .returned fromTST)
      else if type = k.kMTHAPI_ADD_SELECTED_TAB_COMMAND then
        let configs1 :=
          { configs with
            cachedExternalAddons := tableSet configs.cachedExternalAddons senderId true }
        let m1 :=
          { m with mExtraItems := tableSet m.mExtraItems (senderId ++ ":".toList ++ msg.id) msg }
        let r := reserveRefreshItems m1
        (r.1, configs1, thenResolve r.2 true)
      else if type = k.kMTHAPI_REMOVE_SELECTED_TAB_COMMAND then
        let m1 :=
          { m with mExtraItems := tableDelete m.mExtraItems (senderId ++ ":".toList ++ msg.id) }
        let r := reserveRefreshItems m1
        (r.1, configs, thenResolve r.2 true)
      else (m, configs, .returned .undefined)

/-! ### Concrete instances -/

/-- A visibility object in which every item is visible. -/
def allVisible : Visibilities :=
  { reloadTabs := true, bookmarkTabs := true, removeBookmarkFromTabs := true,
    duplicateTabs := true, pinTabs := true, unpinTabs := true, muteTabs := true,
    unmuteTabs := true, moveToNewWindow := true, moveToOtherWindow := true,
    removeTabs := true, removeOther := true, clipboard := true, saveTabs := true,
    printTabs := true, freezeTabs := true, unfreezeTabs := true, protectTabs := true,
    unprotectTabs := true, lockTabs := true, unlockTabs := true, groupTabs := true,
    suspendTabs := true, resumeTabs := true, selectAll := true, select := true,
    unselect := true, invertSelection := true }

/-- An environment with a non-empty selection, every item visible, the default configuration
with the given clipboard formats, and a host that answers the message key itself. -/
def sampleEnv (formats : ClipboardFormats) : MenuEnv :=
  { visibilities := allVisible, hasSelection := true, configs := defaultConfigs formats,
    getMessage := fun key => key }

/-- Two clipboard formats: the label of the first is `URL`, the label of the second, `a/b`,
contains a slash. -/
def slashFormats : ClipboardFormats :=
  .array
    [{ label := "URL".toList, format := "%URL%".toList },
      { label := "a/b".toList, format := "%TITLE%".toList }]

/-- Sample values for the constants of `constants.js`, pairwise distinct. -/
def sampleConstants : Constants :=
  { kTST_ID := "treestyletab@piro.sakura.ne.jp".toList
    kTSTAPI_CONTEXT_MENU_CLICK := "fake-contextMenu-click".toList
    kMTHAPI_ADD_SELECTED_TAB_COMMAND := "add-selected-tab-command".toList
    kMTHAPI_REMOVE_SELECTED_TAB_COMMAND := "remove-selected-tab-command".toList }

/-- The module variables after loading: nothing registered, no timer pending. -/
def emptyModule : MenuModule :=
  { mActiveItems := [], mExtraItems := [], mLastSelectedTabs := [], refreshReserved := false }

/-- A message that registers the command `cmd` with the title `Do`. -/
def addMessage : ExternalMessage :=
  { type := some "add-selected-tab-command".toList, id := "cmd".toList,
    title := some "Do".toList, always := false }

/-- A message that removes the command `cmd`. -/
def removeMessage : ExternalMessage :=
  { type := some "remove-selected-tab-command".toList, id := "cmd".toList,
    title := none, always := false }

/-! ### Errors of message passing (`common.js`) -/

/-- An error object, as far as `handleMissingReceiverError` reads it: the property `message`,
`none` when the object has none. -/
structure ErrorObject where
  message : Option JSString
  deriving DecidableEq, Repr

/-- The method `indexOf(pattern)` of a string, searching from the position `i` of the
original string at which `s` starts: the first position at which `pattern` occurs, or -1. -/
def indexOfFrom (pattern : JSString) : JSString → Nat → Int
  | [], i => if pattern = [] then (i : Int) else -1
  | c :: cs, i =>
    if (stripStart pattern (c :: cs)).isSome then (i : Int)
    else indexOfFrom pattern cs (i + 1)

/-- The method `indexOf(pattern)` of a string. -/
def indexOf (s pattern : JSString) : Int := indexOfFrom pattern s 0

/-- The text by which a missing receiver is recognized. -/
def missingReceiverText : JSString :=
  "Could not establish connection. Receiving end does not exist.".toList

/-- The function `handleMissingReceiverError(error)`: `error` is `none` for a falsy value;
the result is `.error error` when the function throws `error` and `.ok ()` when it
returns. -/
def handleMissingReceiverError (error : Option ErrorObject) :
    Except (Option ErrorObject) Unit :=
  match error with
  | none => .error error
  | some e =>
    match e.message with
    | none => .error error
    | some message =>
      if message = [] then .error error
      else if indexOf message missingReceiverText == -1 then .error error
      else .ok ()

/-! ### Separators and the empty selection: predicates and instances -/

/-- Every separator of the list is immediately followed by a normal item with the same
parent. -/
def SeparatorsFollowed (l : List MenuParams) : Prop :=
  ∀ pre sep post, l = pre ++ sep :: post → sep.type = .separator →
    ∃ q rest, post = q :: rest ∧ q.type = .normal ∧ q.parentId = sep.parentId

/-- Every separator of the list whose parent id is not a name inherited from
`Object.prototype` has a normal item with the same parent somewhere before it. -/
def SeparatorsPreceded (l : List MenuParams) : Prop :=
  ∀ pre sep post, l = pre ++ sep :: post → sep.type = .separator →
    (∃ p, sep.parentId = some p ∧ inheritedName p = true) ∨
      ∃ n ∈ pre, n.type = .normal ∧ n.parentId = sep.parentId

/-- Two clipboard formats whose labels put a separator and then a normal item under the
parent id `toString`. -/
def inheritedParentFormats : ClipboardFormats :=
  .array
    [{ label := "a/toString/-x".toList, format := "%URL%".toList },
      { label := "b/toString/y".toList, format := "%TITLE%".toList }]

/-- One clipboard format whose label `x//clipboard:5:foo` ends, behind two slashes in a row,
like the id of a clipboard item. -/
def injectedClipboardFormats : ClipboardFormats :=
  .array [{ label := "x//clipboard:5:foo".toList, format := "%URL%".toList }]

/-- A message that registers, with the option `always`, a command whose id `a//b` holds two
slashes in a row. -/
def alwaysMessage : ExternalMessage :=
  { type := some "add-selected-tab-command".toList, id := "a//b".toList,
    title := some "T".toList, always := true }

/-- The module variables after `alwaysMessage` arrived from the sender `addon@example`. -/
def alwaysModule : MenuModule :=
  { emptyModule with mExtraItems := [("addon@example:a//b".toList, alwaysMessage)] }

/-- What the tables of `registerItem` record about the active items: the active items place
their separators well, a separator kept in `nextSeparatorIn` for a parent belongs to that
parent, and a parent marked in `normalItemAppearedIn`, or one that holds a kept separator and
is not an inherited name, has a normal item among the active items. -/
structure MenuInvariant (st : RefreshState) : Prop where
  followed : SeparatorsFollowed st.mActiveItems
  preceded : SeparatorsPreceded st.mActiveItems
  kept : ∀ p sep, tableGet st.nextSeparatorIn p = some sep →
    sep.type = .separator ∧ sep.parentId = (if p != [] then some p else none) ∧
      (inheritedName p = true ∨
        ∃ n ∈ st.mActiveItems, n.type = .normal ∧
          n.parentId = (if p != [] then some p else none))
  appeared : ∀ p, tableGet st.normalItemAppearedIn p = some true →
    ∃ n ∈ st.mActiveItems, n.type = .normal ∧
      n.parentId = (if p != [] then some p else none)

end MTH

/-! ## Properties of the selection model -/

namespace MTH

namespace TabMap

theorem mem_keys_iff_has (m : TabMap) (k : Nat) : k ∈ m.keys ↔ m.has k = true := by
  induction m with
  | nil => simp [keys, has]
  | cons e rest ih =>
    simp only [keys, has, List.map_cons, List.mem_cons, List.any_cons, Bool.or_eq_true,
      beq_iff_eq] at ih ⊢
    rw [ih]
    constructor
    · rintro (h | h)
      · exact Or.inl h.symm
      · exact Or.inr h
    · rintro (h | h)
      · exact Or.inl h.symm
      · exact Or.inr h

theorem has_iff_get? (m : TabMap) (k : Nat) : m.has k = true ↔ ∃ t, m.get? k = some t := by
  induction m with
  | nil => simp [has, get?]
  | cons e rest ih =>
    simp only [has, get?, List.any_cons, List.find?_cons] at ih ⊢
    cases hb : (e.1 == k)
    · simpa [hb] using ih
    · simp [hb]

theorem get?_eq_none_of_not_has (m : TabMap) (k : Nat) (h : m.has k = false) :
    m.get? k = none := by
  cases hg : m.get? k with
  | none => rfl
  | some t =>
    have := (has_iff_get? m k).mpr ⟨t, hg⟩
    rw [h] at this
    exact absurd this (by decide)

theorem get?_put (m : TabMap) (k : Nat) (v : Tab) (k' : Nat) :
    (m.put k v).get? k' = if k' = k then some v else m.get? k' := by
  induction m with
  | nil =>
    by_cases h : k' = k
    · simp [put, get?, h]
    · have h' : ¬ k = k' := fun e => h e.symm
      simp [put, get?, h, h']
  | cons e rest ih =>
    obtain ⟨ke, ve⟩ := e
    unfold put
    by_cases h1 : k = ke
    · subst h1
      by_cases h : k' = k
      · simp [get?, h]
      · have h' : ¬ k = k' := fun e => h e.symm
        simp [get?, List.find?_cons, h, h']
    · simp only [h1, if_false]
      by_cases h2 : k < ke
      · simp only [h2, if_true]
        by_cases h : k' = k
        · simp [get?, List.find?_cons, h]
        · have h' : ¬ k = k' := fun e => h e.symm
          simp [get?, List.find?_cons, h, h']
      · simp only [h2, if_false]
        by_cases h3 : ke = k'
        · have h : ¬ k' = k := fun e => h1 (e.symm.trans h3.symm)
          simp [get?, List.find?_cons, h3, h]
        · have h4 : (ke == k') = false := by simpa using h3
          simp only [get?, List.find?_cons, h4] at ih ⊢
          exact ih

theorem has_put (m : TabMap) (k : Nat) (v : Tab) (k' : Nat) :
    (m.put k v).has k' = true ↔ (k' = k ∨ m.has k' = true) := by
  rw [has_iff_get?, has_iff_get?, get?_put]
  by_cases h : k' = k
  · simp [h]
  · simp [h]

theorem get?_delete (m : TabMap) (k k' : Nat) :
    (m.delete k).get? k' = if k' = k then none else m.get? k' := by
  induction m with
  | nil => simp [delete, get?]
  | cons e rest ih =>
    obtain ⟨ke, ve⟩ := e
    simp only [delete, get?] at ih ⊢
    by_cases h1 : ke = k
    · subst h1
      by_cases h : k' = ke
      · subst h
        simp [List.filter_cons]
      · have h' : ¬ ke = k' := fun e => h e.symm
        simpa [List.filter_cons, List.find?_cons, h, h'] using ih
    · by_cases h : k' = k
      · subst h
        simp [List.filter_cons, List.find?_cons, h1]
      · by_cases h3 : ke = k'
        · simp [List.filter_cons, List.find?_cons, h1, h, h3]
        · simpa [List.filter_cons, List.find?_cons, h1, h, h3] using ih

theorem has_delete (m : TabMap) (k k' : Nat) :
    (m.delete k).has k' = true ↔ (k' ≠ k ∧ m.has k' = true) := by
  rw [has_iff_get?, has_iff_get?, get?_delete]
  by_cases h : k' = k
  · simp [h]
  · simp [h]

end TabMap

namespace Selection

theorem selectStep_get? (m : TabMap) (tab : Tab) (k : Nat) :
    (selectStep m tab).get? k =
      if m.has tab.id = true then m.get? k
      else if k = tab.id then some tab else m.get? k := by
  unfold selectStep
  by_cases h : m.has tab.id = true
  · simp [h]
  · simp [h, TabMap.get?_put]

theorem deselectStep_get? (m : TabMap) (tab : Tab) (k : Nat) :
    (deselectStep m tab).get? k = if k = tab.id then none else m.get? k := by
  unfold deselectStep
  by_cases h : m.has tab.id = true
  · simp [h, TabMap.get?_delete]
  · have h' : m.has tab.id = false := by simpa using h
    by_cases hk : k = tab.id
    · subst hk
      simp [h', TabMap.get?_eq_none_of_not_has _ _ h']
    · simp [h', hk]

theorem foldl_selectStep_keep (tabs : List Tab) (m : TabMap) (k : Nat) (t : Tab)
    (h : m.get? k = some t) : (tabs.foldl selectStep m).get? k = some t := by
  induction tabs generalizing m with
  | nil => simpa using h
  | cons tab rest ih =>
    rw [List.foldl_cons]
    apply ih
    rw [selectStep_get?]
    by_cases h1 : m.has tab.id = true
    · simp [h1, h]
    · by_cases hk : k = tab.id
      · subst hk
        exact absurd ((TabMap.has_iff_get? m tab.id).mpr ⟨t, h⟩) h1
      · simp [h1, hk, h]

theorem foldl_selectStep_has (tabs : List Tab) (m : TabMap) (k : Nat) :
    (tabs.foldl selectStep m).has k = true ↔ (m.has k = true ∨ ∃ t ∈ tabs, t.id = k) := by
  induction tabs generalizing m with
  | nil => simp
  | cons tab rest ih =>
    rw [List.foldl_cons, ih]
    have hstep : (selectStep m tab).has k = true ↔ (m.has k = true ∨ tab.id = k) := by
      unfold selectStep
      by_cases h1 : m.has tab.id = true
      · rw [if_pos h1]
        constructor
        · exact Or.inl
        · rintro (h | h)
          · exact h
          · rw [← h]; exact h1
      · rw [if_neg h1, TabMap.has_put]
        constructor
        · rintro (h | h)
          · exact Or.inr h.symm
          · exact Or.inl h
        · rintro (h | h)
          · exact Or.inr h
          · exact Or.inl h.symm
    rw [hstep]
    simp only [List.mem_cons, exists_eq_or_imp]
    tauto

theorem foldl_deselectStep_get? (tabs : List Tab) (m : TabMap) (k : Nat) :
    (tabs.foldl deselectStep m).get? k =
      if tabs.any (fun t => t.id == k) = true then none else m.get? k := by
  induction tabs generalizing m with
  | nil => simp
  | cons tab rest ih =>
    rw [List.foldl_cons, ih, deselectStep_get?]
    by_cases h1 : k = tab.id
    · subst h1
      simp
    · have h1' : ¬ tab.id = k := fun e => h1 e.symm
      simp [h1, h1']

theorem set_true_mTabs (s : Selection) (tabs : List Tab) :
    (s.set tabs true).mTabs = tabs.foldl selectStep s.mTabs := by
  unfold set
  cases tabs with
  | nil => simp
  | cons t rest => simp

theorem set_false_mTabs (s : Selection) (tabs : List Tab) :
    (s.set tabs false).mTabs = tabs.foldl deselectStep s.mTabs := by
  unfold set
  cases tabs with
  | nil => simp
  | cons t rest => simp

theorem set_mTargetWindow (s : Selection) (tabs : List Tab) (selected : Bool) :
    (s.set tabs selected).mTargetWindow = s.mTargetWindow := by
  unfold set
  split
  · rfl
  · split <;> rfl

theorem set_mLastClickedTab (s : Selection) (tabs : List Tab) (selected : Bool) :
    (s.set tabs selected).mLastClickedTab = s.mLastClickedTab := by
  unfold set
  split
  · rfl
  · split <;> rfl

/-- C1. `set(tabs, true)`: afterwards an id is selected exactly when it was selected before or
is the id of one of the given tabs, and every id that was selected before still maps to the tab
object stored before the call. -/
theorem set_true_selected_ids (s : Selection) (tabs : List Tab) :
    (∀ k, k ∈ (s.set tabs true).getSelectedTabIds ↔
        (k ∈ s.getSelectedTabIds ∨ ∃ t ∈ tabs, t.id = k)) ∧
    (∀ k t, s.mTabs.get? k = some t → (s.set tabs true).mTabs.get? k = some t) := by
  refine ⟨fun k => ?_, fun k t h => ?_⟩
  · simp only [getSelectedTabIds, TabMap.mem_keys_iff_has, set_true_mTabs]
    exact foldl_selectStep_has tabs s.mTabs k
  · rw [set_true_mTabs]
    exact foldl_selectStep_keep tabs s.mTabs k t h

/-- C2. `set(tabs, false)`: afterwards an id is selected exactly when it was selected before
and is not the id of one of the given tabs, every other id maps to the same tab object as
before, and the last clicked tab and the target window are unchanged. -/
theorem set_false_selected_ids (s : Selection) (tabs : List Tab) :
    (∀ k, k ∈ (s.set tabs false).getSelectedTabIds ↔
        (k ∈ s.getSelectedTabIds ∧ ¬ ∃ t ∈ tabs, t.id = k)) ∧
    (∀ k, (¬ ∃ t ∈ tabs, t.id = k) →
        (s.set tabs false).mTabs.get? k = s.mTabs.get? k) ∧
    (s.set tabs false).getLastClickedTab = s.getLastClickedTab ∧
    (s.set tabs false).windowId = s.windowId := by
  refine ⟨fun k => ?_, fun k hk => ?_, ?_, ?_⟩
  · simp only [getSelectedTabIds, TabMap.mem_keys_iff_has, TabMap.has_iff_get?,
      set_false_mTabs, foldl_deselectStep_get?]
    by_cases h : tabs.any (fun t => t.id == k) = true
    · have h' : ∃ t ∈ tabs, t.id = k := by simpa using h
      simp [h, h']
    · have h' : ¬ ∃ t ∈ tabs, t.id = k := by simpa using h
      simp [h, h']
  · rw [set_false_mTabs, foldl_deselectStep_get?]
    have h : ¬ (tabs.any (fun t => t.id == k) = true) := by simpa using hk
    simp [h]
  · exact set_mLastClickedTab s tabs false
  · exact set_mTargetWindow s tabs false

end Selection

namespace TabMap

theorem mem_put (m : TabMap) (k : Nat) (v : Tab) (e : Nat × Tab) (h : e ∈ m.put k v) :
    e = (k, v) ∨ e ∈ m := by
  induction m with
  | nil => simpa [put] using h
  | cons x rest ih =>
    obtain ⟨kx, vx⟩ := x
    unfold put at h
    by_cases h1 : k = kx
    · rw [if_pos h1] at h
      rcases List.mem_cons.mp h with h | h
      · exact Or.inl h
      · exact Or.inr (List.mem_cons_of_mem _ h)
    · rw [if_neg h1] at h
      by_cases h2 : k < kx
      · rw [if_pos h2] at h
        rcases List.mem_cons.mp h with h | h
        · exact Or.inl h
        · exact Or.inr h
      · rw [if_neg h2] at h
        rcases List.mem_cons.mp h with h | h
        · exact Or.inr (h ▸ List.mem_cons_self _ _)
        · rcases ih h with h | h
          · exact Or.inl h
          · exact Or.inr (List.mem_cons_of_mem _ h)

theorem has_of_mem (m : TabMap) (e : Nat × Tab) (h : e ∈ m) : m.has e.1 = true := by
  simp only [has, List.any_eq_true, beq_iff_eq]
  exact ⟨e, h, rfl⟩

end TabMap

theorem keysMatch_put (m : TabMap) (tab : Tab) (h : KeysMatch m) :
    KeysMatch (m.put tab.id tab) := by
  intro e he
  rcases TabMap.mem_put m tab.id tab e he with h1 | h1
  · rw [h1]
  · exact h e h1

theorem keysMatch_delete (m : TabMap) (k : Nat) (h : KeysMatch m) :
    KeysMatch (m.delete k) := by
  intro e he
  exact h e (List.mem_of_mem_filter he)

theorem keysMatch_foldl_selectStep (tabs : List Tab) (m : TabMap) (h : KeysMatch m) :
    KeysMatch (tabs.foldl Selection.selectStep m) := by
  induction tabs generalizing m with
  | nil => simpa using h
  | cons tab rest ih =>
    rw [List.foldl_cons]
    apply ih
    unfold Selection.selectStep
    split
    · exact h
    · exact keysMatch_put m tab h

theorem keysMatch_foldl_deselectStep (tabs : List Tab) (m : TabMap) (h : KeysMatch m) :
    KeysMatch (tabs.foldl Selection.deselectStep m) := by
  induction tabs generalizing m with
  | nil => simpa using h
  | cons tab rest ih =>
    rw [List.foldl_cons]
    apply ih
    unfold Selection.deselectStep
    split
    · exact h
    · exact keysMatch_delete m tab.id h

theorem keysMatch_set (s : Selection) (tabs : List Tab) (selected : Bool)
    (h : KeysMatch s.mTabs) : KeysMatch (s.set tabs selected).mTabs := by
  cases selected with
  | true =>
    rw [Selection.set_true_mTabs]
    exact keysMatch_foldl_selectStep tabs s.mTabs h
  | false =>
    rw [Selection.set_false_mTabs]
    exact keysMatch_foldl_deselectStep tabs s.mTabs h

theorem Reachable.keysMatch {s : Selection} (h : Reachable s) : KeysMatch s.mTabs := by
  induction h with
  | create w s hs =>
    unfold Selection.create at hs
    cases w with
    | none => simp at hs
    | some n =>
      by_cases hn : n = 0
      · simp [hn] at hs
      · simp only [hn, if_false, Except.ok.injEq] at hs
        rw [← hs]
        intro e he
        simp at he
  | set s tabs selected _ ih => exact keysMatch_set s tabs selected ih
  | clear s _ _ =>
    intro e he
    simp [Selection.clear] at he
  | invert s tabs _ ih =>
    unfold Selection.invert
    exact keysMatch_set _ _ _ (keysMatch_set _ _ _ ih)
  | setLastClickedTab s tab _ ih => exact ih

namespace Selection

theorem foldl_selectStep_of_has (tabs : List Tab) (m : TabMap)
    (h : ∀ t ∈ tabs, m.has t.id = true) : tabs.foldl selectStep m = m := by
  induction tabs with
  | nil => rfl
  | cons tab rest ih =>
    rw [List.foldl_cons]
    have h1 : selectStep m tab = m := by
      unfold selectStep
      rw [if_pos (h tab (List.mem_cons_self _ _))]
    rw [h1]
    exact ih (fun t ht => h t (List.mem_cons_of_mem _ ht))

theorem foldl_deselectStep_of_not_has (tabs : List Tab) (m : TabMap)
    (h : ∀ t ∈ tabs, m.has t.id = false) : tabs.foldl deselectStep m = m := by
  induction tabs with
  | nil => rfl
  | cons tab rest ih =>
    rw [List.foldl_cons]
    have h1 : deselectStep m tab = m := by
      unfold deselectStep
      simp [h tab (List.mem_cons_self _ _)]
    rw [h1]
    exact ih (fun t ht => h t (List.mem_cons_of_mem _ ht))

theorem apply_serialize_mTabs (a b : Selection) (h : KeysMatch a.mTabs) :
    (b.apply a.serialize).mTabs = a.mTabs := by
  simp only [apply, serialize, set_false_mTabs, set_true_mTabs]
  rw [foldl_selectStep_of_has, foldl_deselectStep_of_not_has]
  · intro t ht
    have := (List.mem_filter.mp ht).2
    simpa using this
  · intro t ht
    have ht' := (List.mem_filter.mp ht).1
    simp only [TabMap.values, List.mem_map] at ht'
    obtain ⟨e, he, rfl⟩ := ht'
    rw [h e he]
    exact TabMap.has_of_mem _ e he

/-- C3. Replication round trip: when `a` is reachable from construction by `set`, `clear`,
`invert` and `setLastClickedTab`, applying the serialized state of `a` to any selection `b`
(directly or through `serialize` / `apply` of the shared state) leaves `b` with the table of
selected tabs, the selected ids, the stored tabs and the last clicked tab of `a`, and with its
own window id. -/
theorem apply_serialize_round_trip {D : Type} (a b : Selection) (drag : D)
    (h : Reachable a) :
    (b.apply a.serialize).mTabs = a.mTabs ∧
    (b.apply a.serialize).getSelectedTabIds = a.getSelectedTabIds ∧
    (b.apply a.serialize).getSelectedTabs = a.getSelectedTabs ∧
    (b.apply a.serialize).getLastClickedTab = a.getLastClickedTab ∧
    (b.apply a.serialize).windowId = b.windowId ∧
    SharedState.apply b (SharedState.serialize a drag) = b.apply a.serialize := by
  have hm := apply_serialize_mTabs a b h.keysMatch
  refine ⟨hm, ?_, ?_, ?_, ?_, rfl⟩
  · simp only [getSelectedTabIds, hm]
  · simp only [getSelectedTabs, hm]
  · simp only [getLastClickedTab, apply, serialize, set_mLastClickedTab]
  · simp only [windowId, apply, serialize, set_mTargetWindow]

end Selection

namespace Selection

/-- Witness of C3: `a` is a fresh selection of window 1 after selecting tab 5, `b` is a
selection of window 2 that holds tab 7. -/
theorem apply_serialize_round_trip_witness :
    Reachable (freshSelection.set [sampleTab 5 0 true true false] true) ∧
    (let a := freshSelection.set [sampleTab 5 0 true true false] true
     let b : Selection :=
       { mTabs := [(7, sampleTab 7 1 false false false)], mTargetWindow := 2,
         mLastClickedTab := some (sampleTab 7 1 false false false) }
     (b.apply a.serialize).mTabs = a.mTabs ∧
     (b.apply a.serialize).getSelectedTabIds = a.getSelectedTabIds ∧
     (b.apply a.serialize).getSelectedTabs = a.getSelectedTabs ∧
     (b.apply a.serialize).getLastClickedTab = a.getLastClickedTab ∧
     (b.apply a.serialize).windowId = b.windowId ∧
     SharedState.apply b (SharedState.serialize a ()) = b.apply a.serialize) :=
  ⟨Reachable.set _ _ _ (Reachable.create (some 1) _ rfl),
   apply_serialize_round_trip _ _ ()
     (Reachable.set _ _ _ (Reachable.create (some 1) _ rfl))⟩

theorem contains_iff_mem_ids (s : Selection) (k : Nat) :
    s.getSelectedTabIds.contains k = s.contains k := by
  have h := TabMap.mem_keys_iff_has s.mTabs k
  simp only [getSelectedTabIds, contains]
  cases hc : s.mTabs.has k
  · have : ¬ k ∈ s.mTabs.keys := by
      intro hk
      rw [h, hc] at hk
      exact absurd hk (by decide)
    simpa using this
  · simpa using h.mpr hc

theorem contains_set_true (s : Selection) (tabs : List Tab) (k : Nat) :
    (s.set tabs true).contains k = true ↔ (s.contains k = true ∨ ∃ t ∈ tabs, t.id = k) := by
  simp only [contains, set_true_mTabs]
  exact foldl_selectStep_has tabs s.mTabs k

theorem contains_set_false (s : Selection) (tabs : List Tab) (k : Nat) :
    (s.set tabs false).contains k = true ↔
      (s.contains k = true ∧ ¬ ∃ t ∈ tabs, t.id = k) := by
  simp only [contains, TabMap.has_iff_get?, set_false_mTabs, foldl_deselectStep_get?]
  by_cases h : tabs.any (fun t => t.id == k) = true
  · have h' : ∃ t ∈ tabs, t.id = k := by simpa using h
    simp [h, h']
  · have h' : ¬ ∃ t ∈ tabs, t.id = k := by simpa using h
    simp [h, h']

/-- C4. `syncHighlightedToSelected`: when the tabs of the window have distinct ids and the
number of highlighted tabs is not one, after the sync a tab of the window is selected if and
only if it is highlighted. -/
theorem syncHighlightedToSelected_selected_iff_highlighted (s : Selection) (tabs : List Tab)
    (hids : (tabs.map (fun tab => tab.id)).Nodup)
    (hcount : (tabs.filter (fun tab => tab.highlighted)).length ≠ 1) :
    ∀ tab ∈ tabs,
      ((s.syncHighlightedToSelected tabs).contains tab.id = true ↔ tab.highlighted = true) := by
  intro tab htab
  have hone : ∀ t ∈ tabs, t.id = tab.id → t = tab := fun t ht he =>
    List.inj_on_of_nodup_map hids ht htab he
  unfold syncHighlightedToSelected
  have hc : ((tabs.filter (fun tab => tab.highlighted)).length == 1) = false := by
    simpa using hcount
  simp only [hc, Bool.false_eq_true, if_false]
  rw [contains_set_false, contains_set_true]
  simp only [List.mem_filter, contains_iff_mem_ids, Bool.and_eq_true, Bool.not_eq_true',
    Bool.not_eq_eq_eq_not, Bool.not_true]
  constructor
  · rintro ⟨hsel, hnot⟩
    cases hh : tab.highlighted with
    | true => rfl
    | false =>
      exfalso
      rcases hsel with hsel | ⟨t, ⟨_, ht2, _⟩, hte⟩
      · exact hnot ⟨tab, ⟨htab, hh, hsel⟩, rfl⟩
      · have := hone t (by assumption) hte
        rw [this, hh] at ht2
        exact absurd ht2 (by decide)
  · intro hh
    constructor
    · cases hsel : s.contains tab.id with
      | true => exact Or.inl rfl
      | false => exact Or.inr ⟨tab, ⟨htab, hh, hsel⟩, rfl⟩
    · rintro ⟨t, ⟨ht1, ht2, _⟩, hte⟩
      have := hone t ht1 hte
      rw [this, hh] at ht2
      exact absurd ht2 (by decide)

/-- Witness of C4: a window of three tabs of which tabs 1 and 3 are highlighted, and a prior
selection that holds tab 2 and an id outside the window. -/
theorem syncHighlightedToSelected_selected_iff_highlighted_witness :
    (([sampleTab 1 0 true true false, sampleTab 2 1 false false false,
        sampleTab 3 2 false true false].map (fun tab => tab.id)).Nodup) ∧
    (([sampleTab 1 0 true true false, sampleTab 2 1 false false false,
        sampleTab 3 2 false true false].filter (fun tab => tab.highlighted)).length ≠ 1) ∧
    ∀ tab ∈ [sampleTab 1 0 true true false, sampleTab 2 1 false false false,
        sampleTab 3 2 false true false],
      ((Selection.syncHighlightedToSelected
          { mTabs := [(2, sampleTab 2 1 false false false), (9, sampleTab 9 0 false false false)],
            mTargetWindow := 1, mLastClickedTab := none }
          [sampleTab 1 0 true true false, sampleTab 2 1 false false false,
            sampleTab 3 2 false true false]).contains tab.id = true ↔
        tab.highlighted = true) :=
  ⟨by decide, by decide,
   syncHighlightedToSelected_selected_iff_highlighted _ _ (by decide) (by decide)⟩

end Selection

namespace Selection

/-- C5. `syncSelectedToHighlighted`: when exactly one tab `a` of the window is active and the
tabs have distinct indices, the list handed to `browser.tabs.highlight` is the index of `a`
followed by the indices of the selected tabs that are not active, in the order of the tab
list; the index of `a` occurs in it exactly once and the list is not empty. -/
theorem syncSelectedToHighlighted_active_first (s : Selection) (tabs : List Tab) (a : Tab)
    (hactive : tabs.filter (fun tab => tab.active) = [a])
    (hidx : (tabs.map (fun tab => tab.index)).Nodup) :
    ∃ l, s.syncSelectedToHighlighted true tabs = some l ∧
      l = a.index ::
        (tabs.filter (fun tab => s.contains tab.id && !tab.active)).map (fun tab => tab.index) ∧
      l.count a.index = 1 ∧ l ≠ [] := by
  have ha : a ∈ tabs ∧ a.active = true := by
    have : a ∈ tabs.filter (fun tab => tab.active) := by rw [hactive]; exact List.mem_singleton_self a
    exact List.mem_filter.mp this
  have hl : s.syncSelectedToHighlighted true tabs = some (a.index ::
      (tabs.filter (fun tab => s.contains tab.id && !tab.active)).map (fun tab => tab.index)) := by
    unfold syncSelectedToHighlighted
    simp only [Bool.not_true, Bool.false_eq_true, if_false, hactive, List.map_cons, List.map_nil,
      List.singleton_append, List.filter_filter, contains_iff_mem_ids]
    congr 4
    funext tab
    exact Bool.and_comm _ _
  refine ⟨_, hl, rfl, ?_, by simp⟩
  rw [List.count_cons_self]
  have hnot : a.index ∉
      (tabs.filter (fun tab => s.contains tab.id && !tab.active)).map (fun tab => tab.index) := by
    intro hmem
    obtain ⟨t, ht, hte⟩ := List.mem_map.mp hmem
    have ht' := List.mem_filter.mp ht
    have heq : t = a := List.inj_on_of_nodup_map hidx ht'.1 ha.1 hte
    have hact : t.active = false := by
      have := ht'.2
      simp only [Bool.and_eq_true, Bool.not_eq_true'] at this
      exact this.2
    rw [heq, ha.2] at hact
    exact absurd hact (by decide)
  rw [List.count_eq_zero_of_not_mem hnot]

/-- Witness of C5: three tabs, the second one active, the first and the third selected. -/
theorem syncSelectedToHighlighted_active_first_witness :
    ([sampleTab 1 0 false false false, sampleTab 2 1 true false false,
        sampleTab 3 2 false false false].filter (fun tab => tab.active) =
      [sampleTab 2 1 true false false]) ∧
    (([sampleTab 1 0 false false false, sampleTab 2 1 true false false,
        sampleTab 3 2 false false false].map (fun tab => tab.index)).Nodup) ∧
    ∃ l, Selection.syncSelectedToHighlighted
        { mTabs := [(1, sampleTab 1 0 false false false), (3, sampleTab 3 2 false false false)],
          mTargetWindow := 1, mLastClickedTab := none } true
        [sampleTab 1 0 false false false, sampleTab 2 1 true false false,
          sampleTab 3 2 false false false] = some l ∧
      l = (sampleTab 2 1 true false false).index ::
        ([sampleTab 1 0 false false false, sampleTab 2 1 true false false,
            sampleTab 3 2 false false false].filter
          (fun tab =>
            Selection.contains
              { mTabs := [(1, sampleTab 1 0 false false false),
                  (3, sampleTab 3 2 false false false)],
                mTargetWindow := 1, mLastClickedTab := none } tab.id && !tab.active)).map
          (fun tab => tab.index) ∧
      l.count (sampleTab 2 1 true false false).index = 1 ∧ l ≠ [] :=
  ⟨by decide, by decide,
   syncSelectedToHighlighted_active_first _ _ _ (by decide) (by decide)⟩

end Selection

/-! ## Properties of the context menu -/

theorem countTabs_of_keys (m : TabMap) (ids : List Nat) (c : Counts)
    (h : ∀ id ∈ ids, m.has id = true) :
    countTabs m ids c = some ((ids.filterMap (fun id => m.get? id)).foldl countStep c) := by
  induction ids generalizing c with
  | nil => rfl
  | cons id rest ih =>
    obtain ⟨t, ht⟩ := (TabMap.has_iff_get? m id).mp (h id (List.mem_cons_self _ _))
    simp only [countTabs, ht, List.filterMap_cons, List.foldl_cons]
    exact ih _ (fun i hi => h i (List.mem_cons_of_mem _ hi))

theorem foldl_countStep_pinned (tabs : List Tab) (c : Counts) :
    (tabs.foldl countStep c).pinnedCount =
      c.pinnedCount + (tabs.filter (fun t => t.pinned)).length := by
  induction tabs generalizing c with
  | nil => simp
  | cons t rest ih =>
    rw [List.foldl_cons, ih]
    cases hp : t.pinned
    · simp [countStep, hp, List.filter_cons]
    · simp [countStep, hp, List.filter_cons]
      omega

theorem filter_length_lt_iff {α : Type} (p : α → Bool) (l : List α) :
    (l.filter p).length < l.length ↔ ∃ x ∈ l, p x = false := by
  induction l with
  | nil => simp
  | cons a rest ih =>
    have hle : (rest.filter p).length ≤ rest.length := List.length_filter_le p rest
    cases hp : p a
    · simp only [List.filter_cons, hp, List.length_cons, List.mem_cons, exists_eq_or_imp,
        true_or, iff_true, Bool.false_eq_true, if_false]
      omega
    · simp only [List.filter_cons, hp, if_true, List.length_cons, List.mem_cons,
        exists_eq_or_imp, Bool.true_eq_false, false_or]
      rw [← ih]
      omega

theorem filter_length_pos_iff {α : Type} (p : α → Bool) (l : List α) :
    0 < (l.filter p).length ↔ ∃ x ∈ l, p x = true := by
  rw [List.length_pos_iff_exists_mem]
  constructor
  · rintro ⟨x, hx⟩
    exact ⟨x, List.mem_filter.mp hx⟩
  · rintro ⟨x, hx⟩
    exact ⟨x, List.mem_filter.mpr hx⟩

theorem length_filterMap_get? (m : TabMap) (ids : List Nat)
    (h : ∀ id ∈ ids, m.has id = true) :
    (ids.filterMap (fun id => m.get? id)).length = ids.length := by
  induction ids with
  | nil => rfl
  | cons id rest ih =>
    obtain ⟨t, ht⟩ := (TabMap.has_iff_get? m id).mp (h id (List.mem_cons_self _ _))
    simp only [List.filterMap_cons, ht, List.length_cons]
    rw [ih (fun i hi => h i (List.mem_cons_of_mem _ hi))]

/-- C6. Visibility of pin / unpin: when every selected id has its tab in the selection table,
`getContextMenuItemVisibilities` returns a result in which, for a non-empty selection,
`pinTabs` is visible if and only if some selected tab is not pinned and `unpinTabs` is visible
if and only if some selected tab is pinned, and in which both are hidden for an empty
selection. -/
theorem pin_unpin_visibility (aTab : Option Tab) (otherWindows : List Window)
    (allTabs : List Tab) (tabIds : List Nat) (selectionTabs : TabMap)
    (h : ∀ id ∈ tabIds, selectionTabs.has id = true) :
    ∃ v, getContextMenuItemVisibilities aTab otherWindows allTabs tabIds selectionTabs = some v ∧
      (tabIds ≠ [] →
        (v.pinTabs = true ↔
          ∃ id ∈ tabIds, ∃ tab, selectionTabs.get? id = some tab ∧ tab.pinned = false) ∧
        (v.unpinTabs = true ↔
          ∃ id ∈ tabIds, ∃ tab, selectionTabs.get? id = some tab ∧ tab.pinned = true)) ∧
      (tabIds = [] → v.pinTabs = false ∧ v.unpinTabs = false) := by
  unfold getContextMenuItemVisibilities
  rw [countTabs_of_keys selectionTabs tabIds _ h]
  refine ⟨_, rfl, ?_, ?_⟩
  · intro hne
    have hpos : 0 < tabIds.length := List.length_pos.mpr hne
    have hlen := length_filterMap_get? selectionTabs tabIds h
    simp only [foldl_countStep_pinned, Nat.zero_add, Bool.and_eq_true, decide_eq_true_eq,
      gt_iff_lt, hpos, true_and]
    constructor
    · rw [← hlen, filter_length_lt_iff]
      simp only [List.mem_filterMap]
      constructor
      · rintro ⟨tab, ⟨id, hid, hget⟩, hp⟩
        exact ⟨id, hid, tab, hget, hp⟩
      · rintro ⟨id, hid, tab, hget, hp⟩
        exact ⟨tab, ⟨id, hid, hget⟩, hp⟩
    · rw [filter_length_pos_iff]
      simp only [List.mem_filterMap]
      constructor
      · rintro ⟨tab, ⟨id, hid, hget⟩, hp⟩
        exact ⟨id, hid, tab, hget, hp⟩
      · rintro ⟨id, hid, tab, hget, hp⟩
        exact ⟨tab, ⟨id, hid, hget⟩, hp⟩
  · intro hnil
    subst hnil
    simp

/-- Witness of C6: a selection of two tabs, tab 1 pinned and tab 2 not pinned. -/
theorem pin_unpin_visibility_witness :
    (∀ id ∈ [1, 2],
      TabMap.has [(1, sampleTab 1 0 true true true), (2, sampleTab 2 1 false true false)] id
        = true) ∧
    ∃ v, getContextMenuItemVisibilities none [] [] [1, 2]
        [(1, sampleTab 1 0 true true true), (2, sampleTab 2 1 false true false)] = some v ∧
      (([1, 2] : List Nat) ≠ [] →
        (v.pinTabs = true ↔
          ∃ id ∈ [1, 2], ∃ tab,
            TabMap.get? [(1, sampleTab 1 0 true true true), (2, sampleTab 2 1 false true false)]
              id = some tab ∧ tab.pinned = false) ∧
        (v.unpinTabs = true ↔
          ∃ id ∈ [1, 2], ∃ tab,
            TabMap.get? [(1, sampleTab 1 0 true true true), (2, sampleTab 2 1 false true false)]
              id = some tab ∧ tab.pinned = true)) ∧
      (([1, 2] : List Nat) = [] → v.pinTabs = false ∧ v.unpinTabs = false) :=
  ⟨by decide, pin_unpin_visibility none [] [] [1, 2] _ (by decide)⟩

/-- C7, evaluated on the selection that holds the single tab `lockedTab`, whose states list is
`['locked']`: the loop leaves `lockedCount` at 0 although one selected tab is locked, so
`lockTabs` is reported visible and `unlockTabs` hidden, while for the same tab, which is not
pinned, `pinTabs` is visible and `unpinTabs` hidden. -/
theorem lock_visibility_counts_unlocked_tabs :
    (countTabs [(1, lockedTab)] [1] ⟨0, 0, 0, 0, 0, 0⟩).map (fun c => c.lockedCount) = some 0 ∧
    (getContextMenuItemVisibilities none [] [lockedTab] [1] [(1, lockedTab)]).map
        (fun v => (v.lockTabs, v.unlockTabs, v.pinTabs, v.unpinTabs)) =
      some (true, false, true, false) := by
  constructor <;> decide

/-- C8, evaluated on a message of type `kMTHAPI_ADD_SELECTED_TAB_COMMAND` with id `cmd` from
the sender `addon@example`, and on the matching remove message: the handler records the
message under the key `addon@example:cmd` (or removes that key) and restarts the refresh
timer, and then throws a `TypeError`, because `reserveRefreshItems` returns `undefined` and
`then` is read from it; it does not return a promise that resolves to `true`. -/
theorem onMessageExternal_add_remove_throws :
    onMessageExternal sampleConstants emptyModule (defaultConfigs (.array []))
        (some addMessage) "addon@example".toList =
      ({ emptyModule with
          mExtraItems := [("addon@example:cmd".toList, addMessage)], refreshReserved := true },
        { defaultConfigs (.array []) with
          cachedExternalAddons := [("addon@example".toList, true)] },
        .threw .typeError) ∧
    onMessageExternal sampleConstants
        { emptyModule with mExtraItems := [("addon@example:cmd".toList, addMessage)] }
        (defaultConfigs (.array [])) (some removeMessage) "addon@example".toList =
      ({ emptyModule with mExtraItems := [], refreshReserved := true },
        defaultConfigs (.array []), .threw .typeError) := by
  constructor <;> decide

/-- C9, evaluated on the formats `slashFormats` with a non-empty selection and every item
visible: the item `clipboard` is created and its submenu holds exactly one item, the one of
the label `URL` at index 0; the entry at index 1, whose non-empty label is `a/b`, produces no
item, neither under the id `clipboard:1:a/b` nor with the title `a/b`. -/
theorem clipboard_label_with_slash_gets_no_item :
    (buildItems (sampleEnv slashFormats) [] []).toOption.map
        (fun st => st.mActiveItems.any (fun p => p.id == "clipboard".toList)) = some true ∧
    (buildItems (sampleEnv slashFormats) [] []).toOption.map
        (fun st => st.mActiveItems.filter (fun p => p.parentId == some "clipboard".toList)) =
      some
        [{ id := "clipboard:0:URL".toList, type := .normal, title := some "URL".toList,
           contexts := ["page".toList, "tab".toList], parentId := some "clipboard".toList }] ∧
    (buildItems (sampleEnv slashFormats) [] []).toOption.map
        (fun st => st.mActiveItems.any
          (fun p => p.id == "clipboard:1:a/b".toList || p.title == some "a/b".toList)) =
      some false := by
  refine ⟨?_, ?_, ?_⟩ <;> decide

/-! ## Clipboard menu ids -/

theorem digitChar_isDigit :
    ∀ m, m < 10 → (Nat.digitChar m).isDigit = true ∧ (Nat.digitChar m).toNat - '0'.toNat = m := by
  decide

/-- The digits that `toDigitsCore` puts in front of its accumulator, with enough fuel. -/
theorem toDigitsCore_spec (fuel : Nat) :
    ∀ n ds, n < fuel →
      ∃ l, Nat.toDigitsCore 10 fuel n ds = l ++ ds ∧ l ≠ [] ∧
        (∀ c ∈ l, c.isDigit = true) ∧
        ∀ acc, l.foldl (fun acc c => acc * 10 + (c.toNat - '0'.toNat)) acc =
          acc * 10 ^ l.length + n := by
  induction fuel with
  | zero => intro n ds h; exact absurd h (Nat.not_lt_zero n)
  | succ fuel ih =>
    intro n ds h
    have hd := digitChar_isDigit (n % 10) (Nat.mod_lt n (by decide))
    unfold Nat.toDigitsCore
    by_cases h0 : n / 10 = 0
    · simp only [h0, if_true]
      have hn : n % 10 = n := Nat.mod_eq_of_lt (by omega)
      refine ⟨[Nat.digitChar (n % 10)], rfl, by simp, ?_, ?_⟩
      · intro c hc
        rw [List.mem_singleton.mp hc]
        exact hd.1
      · intro acc
        simp only [List.foldl_cons, List.foldl_nil, List.length_singleton, pow_one, hd.2]
        omega
    · simp only [h0, if_false]
      obtain ⟨l, hl, hne, hdig, hval⟩ := ih (n / 10) (Nat.digitChar (n % 10) :: ds) (by omega)
      refine ⟨l ++ [Nat.digitChar (n % 10)], ?_, by simp, ?_, ?_⟩
      · rw [hl]; simp
      · intro c hc
        rcases List.mem_append.mp hc with hc | hc
        · exact hdig c hc
        · rw [List.mem_singleton.mp hc]
          exact hd.1
      · intro acc
        rw [List.foldl_append, hval]
        simp only [List.foldl_cons, List.foldl_nil, List.length_append, List.length_singleton,
          hd.2, pow_succ]
        have := Nat.div_add_mod n 10
        nlinarith [this]

theorem numberToString_spec (n : Nat) :
    numberToString n ≠ [] ∧ (∀ c ∈ numberToString n, c.isDigit = true) ∧
      parseInt (numberToString n) = n := by
  obtain ⟨l, hl, hne, hdig, hval⟩ := toDigitsCore_spec (n + 1) n [] (Nat.lt_succ_self n)
  have h : numberToString n = l := by
    simp only [numberToString, Nat.toDigits, hl, List.append_nil]
  rw [h]
  refine ⟨hne, hdig, ?_⟩
  simp only [parseInt, hval, Nat.zero_mul, Nat.zero_add]

theorem takeWhile_append_stop (p : Char → Bool) (l : List Char) (x : Char) (r : List Char)
    (hl : ∀ c ∈ l, p c = true) (hx : p x = false) :
    (l ++ x :: r).takeWhile p = l ∧ (l ++ x :: r).dropWhile p = x :: r := by
  induction l with
  | nil => simp [List.takeWhile_cons, List.dropWhile_cons, hx]
  | cons a rest ih =>
    have ha := hl a (List.mem_cons_self _ _)
    have := ih (fun c hc => hl c (List.mem_cons_of_mem _ hc))
    simp [List.takeWhile_cons, List.dropWhile_cons, ha, this]

theorem matchDigitsColon_number (n : Nat) (rest : JSString) :
    matchDigitsColon (numberToString n ++ ':' :: rest) = some (numberToString n, rest) := by
  obtain ⟨hne, hdig, _⟩ := numberToString_spec n
  obtain ⟨ht, hd⟩ := takeWhile_append_stop Char.isDigit (numberToString n) ':' rest hdig
    (by decide)
  unfold matchDigitsColon
  simp only [ht, hd]
  cases hs : numberToString n with
  | nil => exact absurd hs hne
  | cons c cs => rfl

theorem stripStart_append (p s : JSString) : stripStart p (p ++ s) = some s := by
  induction p with
  | nil => cases s <;> rfl
  | cons c cs ih => simp [stripStart, ih]

theorem onClickCases_no_colon : ∀ name ∈ onClickCases, ':' ∉ name := by
  decide

/-- Where the round trip of a clipboard menu id holds: for every array of clipboard formats,
every index `i` at which the array has an entry and every label `L`, whatever characters it
contains, `onClick` on the menu item id `clipboard:i:L` hands the format of the entry at
index `i` to `Commands.copyToClipboard`. -/
theorem onClick_clipboard_id_round_trip (items : List ClipboardFormat) (i : Nat)
    (item : ClipboardFormat) (L : JSString) (h : items.get? i = some item) :
    onClick (.array items) ("clipboard:".toList ++ numberToString i ++ ":".toList ++ L) =
      .ok (.copyToClipboard (some item.format)) := by
  have hid : "clipboard:".toList ++ numberToString i ++ ":".toList ++ L =
      "clipboard:".toList ++ (numberToString i ++ ':' :: L) := by
    simp [List.append_assoc]
  rw [hid]
  have hcase : onClickCases.contains ("clipboard:".toList ++ (numberToString i ++ ':' :: L))
      = false := by
    cases hc : onClickCases.contains ("clipboard:".toList ++ (numberToString i ++ ':' :: L))
    · rfl
    · exfalso
      have hmem : ("clipboard:".toList ++ (numberToString i ++ ':' :: L)) ∈ onClickCases := by
        simpa using hc
      exact onClickCases_no_colon _ hmem (by simp)
  unfold onClick
  simp only [hcase, Bool.false_eq_true, if_false, stripStart_append, matchDigitsColon_number,
    (numberToString_spec i).2.2, h]

/-- An instance of the round trip: two formats, the second one chosen through a label made of
digits and colons. -/
theorem onClick_clipboard_id_round_trip_witness :
    List.get? [({ label := "URL".toList, format := "%URL%".toList } : ClipboardFormat),
        { label := "1:2:3".toList, format := "%TITLE%".toList }] 1 =
      some { label := "1:2:3".toList, format := "%TITLE%".toList } ∧
    onClick
        (.array [{ label := "URL".toList, format := "%URL%".toList },
          { label := "1:2:3".toList, format := "%TITLE%".toList }])
        ("clipboard:".toList ++ numberToString 1 ++ ":".toList ++ "1:2:3".toList) =
      .ok (.copyToClipboard
        (some (ClipboardFormat.format { label := "1:2:3".toList, format := "%TITLE%".toList }))) :=
  ⟨rfl, onClick_clipboard_id_round_trip _ 1 _ "1:2:3".toList rfl⟩

/-! ## Items of the clipboard submenu -/

theorem splitSlash_of_no_slash (s : JSString) (h : '/' ∉ s) : splitSlash s = [s] := by
  induction s with
  | nil => rfl
  | cons c cs ih =>
    have hc : c ≠ '/' := fun e => h (e ▸ List.mem_cons_self _ _)
    have hcs : '/' ∉ cs := fun e => h (List.mem_cons_of_mem _ e)
    simp [splitSlash, hc, ih hcs]

theorem splitSlash_append_slash (a b : JSString) (h : '/' ∉ a) :
    splitSlash (a ++ '/' :: b) = a :: splitSlash b := by
  induction a with
  | nil => simp [splitSlash]
  | cons c cs ih =>
    have hc : c ≠ '/' := fun e => h (e ▸ List.mem_cons_self _ _)
    have hcs : '/' ∉ cs := fun e => h (List.mem_cons_of_mem _ e)
    simp [splitSlash, hc, ih hcs]

theorem tableGet_eq_none {β : Type} (table : List (JSString × β)) (key : JSString)
    (h : key ∉ table.map (fun e => e.1)) : tableGet table key = none := by
  induction table with
  | nil => rfl
  | cons e rest ih =>
    have h1 : ¬ e.1 = key := fun he =>
      h (List.mem_map.mpr ⟨e, List.mem_cons_self _ _, he⟩)
    have h2 : key ∉ rest.map (fun e => e.1) := fun he => by
      obtain ⟨x, hx, hxe⟩ := List.mem_map.mp he
      exact h (List.mem_map.mpr ⟨x, List.mem_cons_of_mem _ hx, hxe⟩)
    have := ih h2
    simp only [tableGet, List.find?_cons] at this ⊢
    have hb : (e.1 == key) = false := by simpa using h1
    simp only [hb]
    exact this

/-- The 28 names that are the keys of `visibilities` and, behind `context_`, of `configs`. -/
theorem visibility_keys_no_colon :
    ∀ name ∈ ["reloadTabs", "bookmarkTabs", "removeBookmarkFromTabs", "duplicateTabs", "pinTabs",
      "unpinTabs", "muteTabs", "unmuteTabs", "moveToNewWindow", "moveToOtherWindow",
      "removeTabs", "removeOther", "clipboard", "saveTabs", "printTabs", "freezeTabs",
      "unfreezeTabs", "protectTabs", "unprotectTabs", "lockTabs", "unlockTabs", "groupTabs",
      "suspendTabs", "resumeTabs", "selectAll", "select", "unselect",
      "invertSelection"].map String.toList, ':' ∉ name ∧ name ≠ "selection".toList := by
  decide

theorem visibilities_get?_of_colon (v : Visibilities) (id : JSString) (h : ':' ∈ id) :
    v.get? id = none := by
  apply tableGet_eq_none
  intro hmem
  exact (visibility_keys_no_colon id hmem).1 h

theorem configs_context_of_colon (c : Configs) (id : JSString) (h : ':' ∈ id) :
    c.context id = none := by
  apply tableGet_eq_none
  intro hmem
  exact (visibility_keys_no_colon id hmem).1 h

theorem visibilities_get?_selection (v : Visibilities) : v.get? "selection".toList = none := by
  apply tableGet_eq_none
  intro hmem
  exact (visibility_keys_no_colon _ hmem).2 rfl

theorem configs_context_selection (c : Configs) : c.context "selection".toList = none := by
  apply tableGet_eq_none
  intro hmem
  exact (visibility_keys_no_colon _ hmem).2 rfl

theorem registerItem_mono (env : MenuEnv) (st st' : RefreshState) (fullId : JSString)
    (aOptions : ItemOptions) (h : registerItem env st fullId aOptions = .ok st') :
    (∀ p ∈ st.mActiveItems, p ∈ st'.mActiveItems) ∧
      (∀ c ∈ st.createdItems, c ∈ st'.createdItems) := by
  simp only [registerItem] at h
  split_ifs at h with h1 h2 h3 h4 h5 h6 h7 h8 h9 h10 h11
  all_goals first
    | (cases h; exact ⟨fun _ hp => hp, fun _ hc => hc⟩)
    | (cases h; refine ⟨fun _ hp => hp, fun _ hc => ?_⟩; simp [hc])
    | (cases h
       refine ⟨fun p hp => ?_, fun c hc => ?_⟩
       · cases tableGet st.nextSeparatorIn _ <;> simp [hp]
       · simp [hc])

theorem registerAll_mono (env : MenuEnv) (items : List (JSString × ItemOptions)) :
    ∀ st st', registerAll env st items = .ok st' →
      (∀ p ∈ st.mActiveItems, p ∈ st'.mActiveItems) ∧
        (∀ c ∈ st.createdItems, c ∈ st'.createdItems) := by
  induction items with
  | nil =>
    intro st st' h
    simp only [registerAll] at h
    cases h
    exact ⟨fun _ hp => hp, fun _ hc => hc⟩
  | cons x rest ih =>
    intro st st' h
    obtain ⟨id, aOptions⟩ := x
    simp only [registerAll] at h
    cases h1 : registerItem env st id aOptions with
    | error e => simp [h1] at h
    | ok st1 =>
      simp only [h1] at h
      have m1 := registerItem_mono env st st1 id aOptions h1
      have m2 := ih st1 st' h
      exact ⟨fun p hp => m2.1 p (m1.1 p hp), fun c hc => m2.2 c (m1.2 c hc)⟩

theorem registerAll_append (env : MenuEnv) (xs ys : List (JSString × ItemOptions)) :
    ∀ st st', registerAll env st (xs ++ ys) = .ok st' →
      ∃ st1, registerAll env st xs = .ok st1 ∧ registerAll env st1 ys = .ok st' := by
  induction xs with
  | nil =>
    intro st st' h
    exact ⟨st, rfl, h⟩
  | cons x rest ih =>
    intro st st' h
    obtain ⟨id, aOptions⟩ := x
    simp only [List.cons_append, registerAll] at h ⊢
    cases h1 : registerItem env st id aOptions with
    | error e => simp [h1] at h
    | ok st1 =>
      simp only [h1] at h ⊢
      exact ih st1 st' h

theorem registerAll_of_mem (env : MenuEnv) (items : List (JSString × ItemOptions))
    (x : JSString × ItemOptions) (st st' : RefreshState) (hx : x ∈ items)
    (h : registerAll env st items = .ok st') :
    ∃ s1 s2, (∀ c ∈ st.createdItems, c ∈ s1.createdItems) ∧
      registerItem env s1 x.1 x.2 = .ok s2 ∧
      (∀ p ∈ s2.mActiveItems, p ∈ st'.mActiveItems) ∧
      (∀ c ∈ s2.createdItems, c ∈ st'.createdItems) := by
  obtain ⟨xs, ys, rfl⟩ := List.append_of_mem hx
  obtain ⟨s1, h1, h2⟩ := registerAll_append env xs (x :: ys) st st' h
  obtain ⟨id, aOptions⟩ := x
  simp only [registerAll] at h2
  cases h3 : registerItem env s1 id aOptions with
  | error e => simp [h3] at h2
  | ok s2 =>
    simp only [h3] at h2
    have m1 := registerAll_mono env xs st s1 h1
    have m2 := registerAll_mono env ys s2 st' h2
    exact ⟨s1, s2, m1.2, h3, m2.1, m2.2⟩

theorem mem_createdItems_insert (l : List JSString) (id : JSString) :
    id ∈ (if l.contains id = true then l else l ++ [id]) := by
  split
  · rename_i h
    simpa using h
  · simp

/-- The normal item that `registerItem` creates for the id `id` under the parent
`parentId`. -/
theorem registerItem_creates_child (env : MenuEnv) (st : RefreshState)
    (fullId parentId id : JSString) (aOptions : ItemOptions)
    (hsplit : splitSlash fullId = [parentId, id])
    (hproto : inheritedName parentId = false)
    (hne : parentId ≠ [])
    (hcreated : parentId ∈ st.createdItems)
    (hsep : (id.head? == some '-') = false)
    (hvis : (env.visibilities.get? id == some false) = false)
    (hsel : env.hasSelection = true)
    (hcfg : (env.configs.context id == some false) = false) :
    ∃ st', registerItem env st fullId aOptions = .ok st' ∧
      ({ id := id, type := .normal,
         title :=
           if truthyTitle aOptions.title then aOptions.title
           else some (env.getMessage ("context_".toList ++ sanitizeId id ++ "_label".toList)),
         contexts := ["page".toList, "tab".toList],
         parentId := some parentId } : MenuParams) ∈ st'.mActiveItems ∧
      id ∈ st'.createdItems := by
  have hc : st.createdItems.contains parentId = true := by simpa using hcreated
  have hne' : (parentId != []) = true := by simpa using hne
  have hreg : registerItem env st fullId aOptions = .ok
      { mActiveItems :=
          (match tableGet st.nextSeparatorIn parentId with
            | some separator => st.mActiveItems ++ [separator]
            | none => st.mActiveItems) ++
          [{ id := id, type := .normal,
             title :=
               if truthyTitle aOptions.title then aOptions.title
               else some (env.getMessage
                 ("context_".toList ++ sanitizeId id ++ "_label".toList)),
             contexts := ["page".toList, "tab".toList],
             parentId := some parentId }]
        separatorsCount := st.separatorsCount
        normalItemAppearedIn := tableSet st.normalItemAppearedIn parentId true
        createdItems := if st.createdItems.contains id then st.createdItems
          else st.createdItems ++ [id]
        nextSeparatorIn := tableDelete st.nextSeparatorIn parentId } := by
    simp only [registerItem, hsplit, List.getLast?_cons_cons, List.getLast?_singleton,
      Option.getD_some, List.dropLast_cons₂, List.dropLast_single, hproto, hc, hne', hsep, hvis,
      hsel, hcfg, Bool.false_eq_true, if_false, Bool.not_true, Bool.and_false, Bool.and_true,
      Bool.not_false, if_true, Bool.or_false]
  exact ⟨_, hreg, by simp, mem_createdItems_insert _ _⟩

/-- The normal item that `registerItem` creates for a top-level id. -/
theorem registerItem_creates_top (env : MenuEnv) (st : RefreshState) (id : JSString)
    (aOptions : ItemOptions)
    (hsplit : splitSlash id = [id])
    (hsep : (id.head? == some '-') = false)
    (hvis : (env.visibilities.get? id == some false) = false)
    (hsel : env.hasSelection = true)
    (hcfg : (env.configs.context id == some false) = false) :
    ∃ st', registerItem env st id aOptions = .ok st' ∧ id ∈ st'.createdItems := by
  have hp : inheritedName ([] : JSString) = false := by decide
  have hreg : registerItem env st id aOptions = .ok
      { mActiveItems :=
          (match tableGet st.nextSeparatorIn [] with
            | some separator => st.mActiveItems ++ [separator]
            | none => st.mActiveItems) ++
          [{ id := id, type := .normal,
             title :=
               if truthyTitle aOptions.title then aOptions.title
               else some (env.getMessage
                 ("context_".toList ++ sanitizeId id ++ "_label".toList)),
             contexts := ["page".toList, "tab".toList],
             parentId := none }]
        separatorsCount := st.separatorsCount
        normalItemAppearedIn := tableSet st.normalItemAppearedIn [] true
        createdItems := if st.createdItems.contains id then st.createdItems
          else st.createdItems ++ [id]
        nextSeparatorIn := tableDelete st.nextSeparatorIn [] } := by
    simp only [registerItem, hsplit, List.getLast?_singleton, Option.getD_some,
      List.dropLast_single, List.getLast?_nil, Option.getD_none, hp, hsep, hvis, hsel, hcfg,
      Bool.false_eq_true, if_false, Bool.not_true, Bool.and_false, bne_self_eq_false,
      Bool.false_and]
  exact ⟨_, hreg, mem_createdItems_insert _ _⟩

theorem registerAll_cons_ok (env : MenuEnv) (st st' : RefreshState) (id : JSString)
    (aOptions : ItemOptions) (rest : List (JSString × ItemOptions))
    (h : registerAll env st ((id, aOptions) :: rest) = .ok st') :
    ∃ s1, registerItem env st id aOptions = .ok s1 ∧ registerAll env s1 rest = .ok st' := by
  simp only [registerAll] at h
  cases h1 : registerItem env st id aOptions with
  | error e => simp [h1] at h
  | ok s1 =>
    simp only [h1] at h
    exact ⟨s1, rfl, h⟩

theorem mItems_creates_clipboard (env : MenuEnv) (st0 st : RefreshState)
    (hsel : env.hasSelection = true) (hvis : env.visibilities.clipboard = true)
    (hcfg : env.configs.context_clipboard = true)
    (h : registerAll env st0
      (mItems.map (fun id => (id, ({ title := none, always := false } : ItemOptions)))) =
        .ok st) :
    "clipboard".toList ∈ st.createdItems := by
  have hm : mItems = "selection".toList :: mItems.tail := rfl
  have htail : "selection/clipboard".toList ∈ mItems.tail := by decide
  rw [hm, List.map_cons] at h
  generalize mItems.tail = rest at h htail
  obtain ⟨st1', h1', hrest⟩ := registerAll_cons_ok env st0 st _ _ _ h
  obtain ⟨st1, h1, hc1⟩ := registerItem_creates_top env st0 "selection".toList
    { title := none, always := false } (by decide) (by decide)
    (by rw [visibilities_get?_selection]; rfl) hsel
    (by rw [configs_context_selection]; rfl)
  have e1 : st1 = st1' := by
    rw [h1] at h1'
    exact Except.ok.inj h1'
  rw [← e1] at hrest
  obtain ⟨s1, s2, m1, hreg, _, m2⟩ := registerAll_of_mem env
    (rest.map (fun id => (id, ({ title := none, always := false } : ItemOptions))))
    ("selection/clipboard".toList, ({ title := none, always := false } : ItemOptions)) st1 st
    (List.mem_map.mpr ⟨"selection/clipboard".toList, htail, rfl⟩) hrest
  have hv : env.visibilities.get? "clipboard".toList = some env.visibilities.clipboard := rfl
  have hk : env.configs.context "clipboard".toList = some env.configs.context_clipboard := rfl
  obtain ⟨s2', hreg', _, hc2⟩ := registerItem_creates_child env s1 "selection/clipboard".toList
    "selection".toList "clipboard".toList { title := none, always := false }
    (by decide) (by decide) (by decide) (m1 _ hc1) (by decide)
    (by rw [hv, hvis]; rfl) hsel (by rw [hk, hcfg]; rfl)
  have e2 : s2 = s2' := by
    rw [hreg] at hreg'
    exact Except.ok.inj hreg'
  rw [← e2] at hc2
  exact m2 _ hc2

theorem isDigit_ne_slash (c : Char) (h : c.isDigit = true) : c ≠ '/' := by
  intro e
  rw [e] at h
  exact absurd h (by decide)

theorem formatTitle_format_id (i : Nat) (label : JSString) :
    formatTitle ("clipboard/clipboard:".toList ++ numberToString i ++ ":".toList ++ label) =
      label := by
  have hid : "clipboard/clipboard:".toList ++ numberToString i ++ ":".toList ++ label =
      "clipboard/clipboard:".toList ++ (numberToString i ++ ':' :: label) := by
    simp [List.append_assoc]
  rw [hid]
  simp only [formatTitle, stripStart_append, matchDigitsColon_number]

/-- When the selection is not empty and the item `clipboard` is visible and enabled, so that
it is created, every entry of the array of clipboard formats whose label is not empty and
contains no slash has, in the active items of a completed build, a normal item with id
`clipboard:i:L`, parent `clipboard` and title `L`. -/
theorem clipboard_item_of_label_without_slash (env : MenuEnv) (otherWindows : List Window)
    (mExtraItems : List (JSString × ExternalMessage)) (st : RefreshState)
    (items : List ClipboardFormat) (i : Nat) (item : ClipboardFormat)
    (hformats : env.configs.copyToClipboardFormats = .array items)
    (hitem : items.get? i = some item) (hlabel : item.label ≠ [])
    (hslash : '/' ∉ item.label)
    (hsel : env.hasSelection = true) (hvis : env.visibilities.clipboard = true)
    (hcfg : env.configs.context_clipboard = true)
    (hbuild : buildItems env otherWindows mExtraItems = .ok st) :
    ({ id := "clipboard:".toList ++ numberToString i ++ ":".toList ++ item.label,
       type := .normal, title := some item.label,
       contexts := ["page".toList, "tab".toList],
       parentId := some "clipboard".toList } : MenuParams) ∈ st.mActiveItems := by
  unfold buildItems at hbuild
  rw [List.append_assoc, List.append_assoc] at hbuild
  obtain ⟨sa, ha, hrest⟩ := registerAll_append env _ _ _ _ hbuild
  obtain ⟨sb, hb, hrest2⟩ := registerAll_append env _ _ _ _ hrest
  have hclip := mItems_creates_clipboard env _ sa hsel hvis hcfg ha
  have hmono := registerAll_mono env _ sb st hrest2
  -- the id of the entry is one of the format ids
  have hmem : ("clipboard/clipboard:".toList ++ numberToString i ++ ":".toList ++ item.label)
      ∈ formatIds env.configs.copyToClipboardFormats := by
    rw [hformats]
    simp only [formatIds]
    refine List.mem_map.mpr ⟨(i, item), List.mem_filter.mpr ⟨?_, ?_⟩, rfl⟩
    · exact List.mk_mem_enum_iff_getElem?.mpr (by rw [← List.get?_eq_getElem?]; exact hitem)
    · simpa using hlabel
  obtain ⟨s1, s2, m1, hreg, m2, _⟩ := registerAll_of_mem env _
    ("clipboard/clipboard:".toList ++ numberToString i ++ ":".toList ++ item.label,
      ({ title := some (formatTitle
          ("clipboard/clipboard:".toList ++ numberToString i ++ ":".toList ++ item.label)),
         always := false } : ItemOptions)) sa sb
    (List.mem_map.mpr ⟨_, hmem, rfl⟩) hb
  -- the id splits into the parent `clipboard` and the id `clipboard:i:L`
  have hnum : '/' ∉ numberToString i := fun hm =>
    isDigit_ne_slash _ ((numberToString_spec i).2.1 _ hm) rfl
  have hsplit : splitSlash
      ("clipboard/clipboard:".toList ++ numberToString i ++ ":".toList ++ item.label) =
      ["clipboard".toList,
        "clipboard:".toList ++ numberToString i ++ ":".toList ++ item.label] := by
    have e1 : "clipboard/clipboard:".toList ++ numberToString i ++ ":".toList ++ item.label =
        "clipboard".toList ++ '/' ::
          ("clipboard:".toList ++ numberToString i ++ ":".toList ++ item.label) := by
      simp [List.append_assoc]
    rw [e1, splitSlash_append_slash _ _ (by decide), splitSlash_of_no_slash]
    intro hm
    simp only [List.mem_append] at hm
    rcases hm with ((hm | hm) | hm) | hm
    · exact absurd hm (by decide)
    · exact hnum hm
    · exact absurd hm (by decide)
    · exact hslash hm
  have hcolon : ':' ∈ "clipboard:".toList ++ numberToString i ++ ":".toList ++ item.label := by
    simp
  obtain ⟨s2', hreg', hin, _⟩ := registerItem_creates_child env s1 _ "clipboard".toList
    ("clipboard:".toList ++ numberToString i ++ ":".toList ++ item.label)
    { title := some (formatTitle
        ("clipboard/clipboard:".toList ++ numberToString i ++ ":".toList ++ item.label)),
      always := false }
    hsplit (by decide) (by decide) (m1 _ hclip) (by simp)
    (by rw [visibilities_get?_of_colon _ _ hcolon]; rfl) hsel
    (by rw [configs_context_of_colon _ _ hcolon]; rfl)
  have e2 : s2 = s2' := by
    rw [hreg] at hreg'
    exact Except.ok.inj hreg'
  rw [← e2] at hin
  have htitle : truthyTitle (some item.label) = true := by
    simpa [truthyTitle] using hlabel
  simp only [formatTitle_format_id, htitle, if_true] at hin
  exact hmono.1 _ (m2 _ hin)

/-! ## What the counters and the message handler do in general -/

/-- The counter `lockedCount` is the number of selected tabs whose states list is present and
does not hold `locked`. -/
theorem foldl_countStep_locked (tabs : List Tab) (c : Counts) :
    (tabs.foldl countStep c).lockedCount =
      c.lockedCount + (tabs.filter (fun t => statesLack t "locked".toList)).length := by
  induction tabs generalizing c with
  | nil => simp
  | cons t rest ih =>
    rw [List.foldl_cons, ih]
    have hstep : (countStep c t).lockedCount =
        if statesLack t "locked".toList = true then c.lockedCount + 1 else c.lockedCount := rfl
    rw [hstep, List.filter_cons]
    by_cases hp : statesLack t "locked".toList = true
    · rw [if_pos hp, if_pos hp, List.length_cons]
      omega
    · rw [if_neg hp, if_neg hp]

theorem tableGet_tableSet {β : Type} (table : List (JSString × β)) (key : JSString)
    (value : β) : tableGet (tableSet table key value) key = some value := by
  induction table with
  | nil => simp [tableSet, tableGet]
  | cons e rest ih =>
    obtain ⟨k, v⟩ := e
    unfold tableSet
    by_cases h : k = key
    · simp [h, tableGet]
    · have hb : (k == key) = false := by simpa using h
      simp only [h, if_false, tableGet, List.find?_cons, hb] at ih ⊢
      exact ih

/-- Every message of type `kMTHAPI_ADD_SELECTED_TAB_COMMAND` that is not taken by the branch
for Tree Style Tab is recorded under the key made of the sender id, a colon and the message
id, restarts the refresh timer, and makes the handler throw a `TypeError`. -/
theorem onMessageExternal_add (k : Constants) (m : MenuModule) (configs : Configs)
    (msg : ExternalMessage) (senderId : JSString)
    (htype : msg.type = some k.kMTHAPI_ADD_SELECTED_TAB_COMMAND)
    (hclick : k.kMTHAPI_ADD_SELECTED_TAB_COMMAND ≠ k.kTSTAPI_CONTEXT_MENU_CLICK) :
    tableGet (onMessageExternal k m configs (some msg) senderId).1.mExtraItems
        (senderId ++ ":".toList ++ msg.id) = some msg ∧
      (onMessageExternal k m configs (some msg) senderId).1.refreshReserved = true ∧
      (onMessageExternal k m configs (some msg) senderId).2.2 = .threw .typeError := by
  have hb : (some k.kMTHAPI_ADD_SELECTED_TAB_COMMAND == some k.kTSTAPI_CONTEXT_MENU_CLICK)
      = false := by simpa using hclick
  have htst : (if senderId = k.kTST_ID then onTSTAPIMessage k msg else JSValue.undefined)
      = JSValue.undefined := by
    split
    · simp [onTSTAPIMessage, htype, hb]
    · rfl
  simp only [onMessageExternal, htype, htst, ne_eq, not_true_eq_false, if_false, if_true,
    reserveRefreshItems, thenResolve, tableGet_tableSet, and_self]

/-! ## Errors, construction, clearing and inversion -/

theorem stripStart_eq_some (p s r : JSString) (h : stripStart p s = some r) : s = p ++ r := by
  induction p generalizing s with
  | nil =>
    cases s <;> simp [stripStart] at h <;> simp [h]
  | cons c cs ih =>
    cases s with
    | nil => simp [stripStart] at h
    | cons d ds =>
      simp only [stripStart] at h
      by_cases hcd : c = d
      · rw [if_pos hcd] at h
        rw [hcd, ih ds h]
        rfl
      · rw [if_neg hcd] at h
        exact absurd h (by simp)

theorem indexOfFrom_nonneg_or (pattern s : JSString) (i : Nat) :
    indexOfFrom pattern s i = -1 ∨ 0 ≤ indexOfFrom pattern s i := by
  induction s generalizing i with
  | nil =>
    unfold indexOfFrom
    split
    · exact Or.inr (Int.ofNat_nonneg i)
    · exact Or.inl rfl
  | cons c cs ih =>
    unfold indexOfFrom
    split
    · exact Or.inr (Int.ofNat_nonneg i)
    · exact ih (i + 1)

/-- The search gives -1 exactly when the pattern does not occur in the string. -/
theorem indexOfFrom_eq_neg_one (pattern s : JSString) (i : Nat) :
    indexOfFrom pattern s i = -1 ↔ ¬ ∃ a b, s = a ++ pattern ++ b := by
  induction s generalizing i with
  | nil =>
    unfold indexOfFrom
    by_cases hp : pattern = []
    · rw [if_pos hp]
      constructor
      · intro h
        have := Int.ofNat_nonneg i
        omega
      · intro h
        exact absurd ⟨[], [], by simp [hp]⟩ h
    · rw [if_neg hp]
      constructor
      · rintro _ ⟨a, b, hab⟩
        have : (a ++ pattern ++ b).length = 0 := by rw [← hab]; rfl
        simp only [List.length_append] at this
        have hl : pattern.length = 0 := by omega
        exact hp (List.length_eq_zero.mp hl)
      · intro _
        rfl
  | cons c cs ih =>
    unfold indexOfFrom
    cases hs : stripStart pattern (c :: cs) with
    | some r =>
      simp only [Option.isSome_some, if_true]
      constructor
      · intro h
        have := Int.ofNat_nonneg i
        omega
      · intro h
        exact absurd ⟨[], r, by simpa using stripStart_eq_some _ _ _ hs⟩ h
    | none =>
      simp only [Option.isSome_none, Bool.false_eq_true, if_false]
      rw [ih (i + 1)]
      constructor
      · rintro h ⟨a, b, hab⟩
        cases a with
        | nil =>
          have : stripStart pattern (c :: cs) = some b := by
            rw [hab]
            simpa using stripStart_append pattern b
          rw [hs] at this
          exact absurd this (by simp)
        | cons d a' =>
          simp only [List.cons_append, List.cons.injEq] at hab
          exact h ⟨a', b, hab.2⟩
      · rintro h ⟨a, b, hab⟩
        exact h ⟨c :: a, b, by simp [hab]⟩

/-- C11. `handleMissingReceiverError` throws the given error, unchanged, if and only if the
error is falsy, has no message or an empty one, or has a message in which the text of a
missing receiver does not occur; when the text occurs in the message the function returns
without throwing. -/
theorem handleMissingReceiverError_throws_iff (error : Option ErrorObject) :
    (handleMissingReceiverError error = .error error ↔
      (error = none ∨
        ∃ e, error = some e ∧
          (e.message = none ∨ e.message = some [] ∨
            ∃ message, e.message = some message ∧
              ¬ ∃ a b, message = a ++ missingReceiverText ++ b))) ∧
    (∀ e message, error = some e → e.message = some message →
      (∃ a b, message = a ++ missingReceiverText ++ b) →
        handleMissingReceiverError error = .ok ()) := by
  have hne : missingReceiverText ≠ [] := by decide
  have key : ∀ message : JSString, message ≠ [] →
      ((indexOf message missingReceiverText == -1) = true ↔
        ¬ ∃ a b, message = a ++ missingReceiverText ++ b) := by
    intro message _
    rw [beq_iff_eq]
    exact indexOfFrom_eq_neg_one missingReceiverText message 0
  have hocc : ∀ message : JSString, (∃ a b, message = a ++ missingReceiverText ++ b) →
      message ≠ [] := by
    rintro message ⟨a, b, hab⟩ hnil
    rw [hnil] at hab
    have : (a ++ missingReceiverText ++ b).length = 0 := by rw [← hab]; rfl
    simp only [List.length_append] at this
    exact hne (List.length_eq_zero.mp (by omega))
  constructor
  · cases error with
    | none => simp [handleMissingReceiverError]
    | some e =>
      cases hm : e.message with
      | none => simp [handleMissingReceiverError, hm]
      | some message =>
        by_cases hnil : message = []
        · simp [handleMissingReceiverError, hm, hnil]
        · by_cases hidx : (indexOf message missingReceiverText == -1) = true
          · have hno := (key message hnil).mp hidx
            simp only [handleMissingReceiverError, hm, hnil, hidx, if_false, if_true,
              true_iff]
            exact Or.inr ⟨e, rfl, Or.inr (Or.inr ⟨message, hm, hno⟩)⟩
          · have hocc' : ∃ a b, message = a ++ missingReceiverText ++ b := by
              by_contra hcon
              exact hidx ((key message hnil).mpr hcon)
            simp only [handleMissingReceiverError, hm, hnil, hidx, if_false]
            constructor
            · intro h
              exact absurd h (by simp)
            · rintro (h | ⟨e', he', h⟩)
              · exact absurd h (by simp)
              · have hee : e = e' := Option.some.inj he'
                rw [← hee, hm] at h
                rcases h with h | h | ⟨m', hm', hno⟩
                · exact absurd h (by simp)
                · exact absurd (Option.some.inj h) hnil
                · rw [← Option.some.inj hm'] at hno
                  exact absurd hocc' hno
  · intro e message he hm hocc'
    have hnil := hocc message hocc'
    have hidx : ¬ (indexOf message missingReceiverText == -1) = true := fun h =>
      (key message hnil).mp h hocc'
    rw [he]
    simp only [handleMissingReceiverError, hm, hnil, hidx, if_false, Bool.false_eq_true]

/-- C12. The constructor throws `Selection must have a window ID` if and only if the window
id is falsy (absent, or the number 0); for every other id it yields a selection with no
selected tab (`count()` is 0, `has()` is false, no id is contained), no last clicked tab, and
that window id. -/
theorem create_throws_iff_falsy (windowId : Option Nat) :
    (Selection.create windowId = .error "Selection must have a window ID" ↔
      (windowId = none ∨ windowId = some 0)) ∧
    (∀ n, windowId = some n → n ≠ 0 →
      ∃ s, Selection.create windowId = .ok s ∧ s.count = 0 ∧ s.has = false ∧
        s.getSelectedTabIds = [] ∧ (∀ id, s.contains id = false) ∧
        s.getLastClickedTab = none ∧ s.windowId = n) := by
  constructor
  · cases windowId with
    | none => simp [Selection.create]
    | some n =>
      by_cases hn : n = 0
      · simp [Selection.create, hn]
      · simp [Selection.create, hn]
  · intro n hw hn
    rw [hw]
    refine ⟨{ mTabs := [], mTargetWindow := n, mLastClickedTab := none }, ?_, rfl, rfl, rfl,
      fun _ => rfl, rfl, rfl⟩
    simp [Selection.create, hn]

namespace Selection

theorem clear_mTabs (s : Selection) : s.clear.mTabs = [] := rfl

theorem clear_mLastClickedTab (s : Selection) : s.clear.mLastClickedTab = none := rfl

/-- C13. `syncHighlightedToSelected` with exactly one highlighted tab in the window clears the
selection, whatever it held: afterwards `count()` is 0, `has()` is false, no id is selected,
be it the id of the highlighted tab, of another tab of the window or of no tab of the window,
and the last clicked tab is `null`. -/
theorem syncHighlightedToSelected_single_clears (s : Selection) (tabs : List Tab)
    (hone : (tabs.filter (fun tab => tab.highlighted)).length = 1) :
    (s.syncHighlightedToSelected tabs).count = 0 ∧
    (s.syncHighlightedToSelected tabs).has = false ∧
    (s.syncHighlightedToSelected tabs).getSelectedTabIds = [] ∧
    (∀ id, (s.syncHighlightedToSelected tabs).contains id = false) ∧
    (s.syncHighlightedToSelected tabs).getLastClickedTab = none := by
  have h : s.syncHighlightedToSelected tabs = s.clear := by
    unfold syncHighlightedToSelected
    simp [hone]
  rw [h]
  exact ⟨rfl, rfl, rfl, fun _ => rfl, rfl⟩

/-- Witness of C13: a window of two tabs of which only tab 1 is highlighted, and a prior
selection that holds tab 1, tab 2 and an id outside the window. -/
theorem syncHighlightedToSelected_single_clears_witness :
    ([sampleTab 1 0 true true false, sampleTab 2 1 false false false].filter
        (fun tab => tab.highlighted)).length = 1 ∧
    (let s : Selection :=
       { mTabs := [(1, sampleTab 1 0 true true false), (2, sampleTab 2 1 false false false),
           (9, sampleTab 9 0 false false false)],
         mTargetWindow := 1, mLastClickedTab := some (sampleTab 2 1 false false false) }
     let tabs := [sampleTab 1 0 true true false, sampleTab 2 1 false false false]
     (s.syncHighlightedToSelected tabs).count = 0 ∧
     (s.syncHighlightedToSelected tabs).has = false ∧
     (s.syncHighlightedToSelected tabs).getSelectedTabIds = [] ∧
     (∀ id, (s.syncHighlightedToSelected tabs).contains id = false) ∧
     (s.syncHighlightedToSelected tabs).getLastClickedTab = none) :=
  ⟨by decide, syncHighlightedToSelected_single_clears _ _ (by decide)⟩

theorem contains_invert (s : Selection) (tabs : List Tab) (id : Nat) :
    (s.invert tabs).contains id = true ↔
      ((s.contains id = true ∧ ¬ ∃ t ∈ tabs, t.id = id) ∨
        (s.contains id = false ∧ ∃ t ∈ tabs, t.id = id)) := by
  unfold invert
  rw [contains_set_true, contains_set_false]
  simp only [List.mem_filter, contains_iff_mem_ids, Bool.not_eq_true']
  constructor
  · rintro (⟨hsel, hnot⟩ | ⟨t, ⟨ht, hns⟩, hid⟩)
    · left
      refine ⟨hsel, ?_⟩
      rintro ⟨t, ht, hid⟩
      exact hnot ⟨t, ⟨ht, by rw [hid]; exact hsel⟩, hid⟩
    · right
      rw [hid] at hns
      exact ⟨hns, t, ht, hid⟩
  · rintro (⟨hsel, hnot⟩ | ⟨hns, t, ht, hid⟩)
    · left
      refine ⟨hsel, ?_⟩
      rintro ⟨t, ⟨ht, _⟩, hid⟩
      exact hnot ⟨t, ht, hid⟩
    · right
      exact ⟨t, ⟨ht, by rw [hid]; exact hns⟩, hid⟩

/-- C16. `invert` on the tabs of the window: afterwards a tab of the window is selected if
and only if it was not selected before, every selected id that is the id of no tab of the
window is still selected, and a second `invert` on the same tabs gives back the original set
of selected ids. The tab ids need not be distinct for this. -/
theorem invert_selected_iff_not_selected (s : Selection) (tabs : List Tab) :
    (∀ tab ∈ tabs, ((s.invert tabs).contains tab.id = true ↔ s.contains tab.id = false)) ∧
    (∀ id, s.contains id = true → (¬ ∃ t ∈ tabs, t.id = id) →
      (s.invert tabs).contains id = true) ∧
    (∀ id, id ∈ ((s.invert tabs).invert tabs).getSelectedTabIds ↔
      id ∈ s.getSelectedTabIds) := by
  refine ⟨fun tab htab => ?_, fun id hsel hnot => ?_, fun id => ?_⟩
  · rw [contains_invert]
    constructor
    · rintro (⟨_, hnot⟩ | ⟨hns, _⟩)
      · exact absurd ⟨tab, htab, rfl⟩ hnot
      · exact hns
    · intro hns
      exact Or.inr ⟨hns, tab, htab, rfl⟩
  · rw [contains_invert]
    exact Or.inl ⟨hsel, hnot⟩
  · have hc : ∀ (x : Selection), id ∈ x.getSelectedTabIds ↔ x.contains id = true := fun x => by
      simp only [getSelectedTabIds, contains]
      exact TabMap.mem_keys_iff_has x.mTabs id
    rw [hc, hc, contains_invert]
    by_cases hw : ∃ t ∈ tabs, t.id = id
    · cases h1 : (s.invert tabs).contains id with
      | true =>
        have := (contains_invert s tabs id).mp h1
        rcases this with ⟨_, hnot⟩ | ⟨hns, _⟩
        · exact absurd hw hnot
        · simp [hw, hns]
      | false =>
        have hsel : s.contains id = true := by
          by_contra hcon
          have hns : s.contains id = false := by simpa using hcon
          have := (contains_invert s tabs id).mpr (Or.inr ⟨hns, hw⟩)
          rw [h1] at this
          exact absurd this (by decide)
        simp [hw, hsel]
    · cases h1 : (s.invert tabs).contains id with
      | true =>
        have := (contains_invert s tabs id).mp h1
        rcases this with ⟨hsel, _⟩ | ⟨_, hw'⟩
        · simp [hw, hsel]
        · exact absurd hw' hw
      | false =>
        have hns : s.contains id = false := by
          by_contra hcon
          have hsel : s.contains id = true := by simpa using hcon
          have := (contains_invert s tabs id).mpr (Or.inl ⟨hsel, hw⟩)
          rw [h1] at this
          exact absurd this (by decide)
        simp [hw, hns]

end Selection

/-! ## Separators and the empty selection -/

/-- C14, evaluated on the formats `inheritedParentFormats` with a non-empty selection and
every item visible. The first label makes `registerItem` see the separator id `-x` under the
parent id `toString`; the tests `parentId in createdItems` and
`normalItemAppearedIn[parentId]` succeed on the inherited property although no item was
created under that parent, so the separator is kept, and the second label pushes it in front
of the normal item `y`. The items whose parent is `toString` are the separator `separator7`
and then `y`, and they are the last two active items: the menu of that parent starts with a
separator that no normal item of the parent precedes. -/
theorem separator_first_under_inherited_parent :
    (buildItems (sampleEnv inheritedParentFormats) [] []).toOption.map
        (fun st => st.mActiveItems.filter (fun p => p.parentId == some "toString".toList)) =
      some
        [{ id := "separator7".toList, type := .separator, title := none,
           contexts := ["page".toList, "tab".toList], parentId := some "toString".toList },
         { id := "y".toList, type := .normal, title := some "b/toString/y".toList,
           contexts := ["page".toList, "tab".toList], parentId := some "toString".toList }] ∧
    (buildItems (sampleEnv inheritedParentFormats) [] []).toOption.map
        (fun st => st.mActiveItems.drop (st.mActiveItems.length - 2)) =
      some
        [{ id := "separator7".toList, type := .separator, title := none,
           contexts := ["page".toList, "tab".toList], parentId := some "toString".toList },
         { id := "y".toList, type := .normal, title := some "b/toString/y".toList,
           contexts := ["page".toList, "tab".toList], parentId := some "toString".toList }] := by
  constructor <;> decide

/-- C15, evaluated with no tab selected and one extra item, registered with `always: true`
by `alwaysMessage`, whose id is `a//b`. The forced refresh splits the id
`selection/extra:addon@example:a//b` into the id `b` and the empty parent id, so the item
needs no parent and passes the test on `always`: the active items are not empty, they hold
the top-level normal item `b`, although the item `selection` was not created. -/
theorem always_item_created_without_selection :
    (refreshItems (defaultConfigs (.array [])) (fun key => key) []
        [sampleTab 1 0 true true false] [] [] [] alwaysModule none true).toOption.map
        (fun m => m.mActiveItems) =
      some
        [{ id := "b".toList, type := .normal, title := some "T".toList,
           contexts := ["page".toList, "tab".toList], parentId := none }] ∧
    (refreshItems (defaultConfigs (.array [])) (fun key => key) []
        [sampleTab 1 0 true true false] [] [] [] alwaysModule none true).toOption.map
        (fun m => m.mActiveItems) ≠ some [] := by
  constructor <;> decide

theorem tableGet_tableSet_of_ne {β : Type} (table : List (JSString × β)) (key k : JSString)
    (value : β) (h : k ≠ key) : tableGet (tableSet table key value) k = tableGet table k := by
  have hb : (key == k) = false := by
    simpa using fun e : key = k => h e.symm
  induction table with
  | nil => simp only [tableSet, tableGet, List.find?_cons, hb, List.find?_nil]
  | cons e rest ih =>
    obtain ⟨k', v⟩ := e
    unfold tableSet
    by_cases h1 : k' = key
    · have hb' : (k' == k) = false := by rw [h1]; exact hb
      rw [if_pos h1]
      simp only [tableGet, List.find?_cons, hb, hb']
    · rw [if_neg h1]
      simp only [tableGet, List.find?_cons] at ih ⊢
      cases hk : (k' == k)
      · exact ih
      · rfl

theorem tableGet_tableDelete {β : Type} (table : List (JSString × β)) (key k : JSString)
    (v : β) (h : tableGet (tableDelete table key) k = some v) :
    k ≠ key ∧ tableGet table k = some v := by
  induction table with
  | nil => simp [tableDelete, tableGet] at h
  | cons e rest ih =>
    obtain ⟨k', v'⟩ := e
    simp only [tableDelete, tableGet] at ih h ⊢
    by_cases h1 : k' = key
    · have hf : ((k', v') :: rest).filter (fun e => e.1 != key) =
          rest.filter (fun e => e.1 != key) := by
        simp [List.filter_cons, h1]
      rw [hf] at h
      obtain ⟨hne, hget⟩ := ih h
      refine ⟨hne, ?_⟩
      have hb : (k' == k) = false := by
        rw [h1]
        simpa using fun e : key = k => hne e.symm
      simp only [List.find?_cons, hb]
      exact hget
    · have hf : ((k', v') :: rest).filter (fun e => e.1 != key) =
          (k', v') :: rest.filter (fun e => e.1 != key) := by
        simp [List.filter_cons, h1]
      rw [hf] at h
      simp only [List.find?_cons] at h ⊢
      cases hk : (k' == k)
      · rw [hk] at h
        exact ih h
      · rw [hk] at h
        have hkk : k' = k := by simpa using hk
        exact ⟨fun e => h1 (hkk.trans e), h⟩

/-- The ways a list that ends with `x` splits around one of its elements. -/
theorem append_singleton_split {α : Type} (l pre post : List α) (x s : α)
    (h : l ++ [x] = pre ++ s :: post) :
    (post = [] ∧ pre = l ∧ s = x) ∨ ∃ post', post = post' ++ [x] ∧ l = pre ++ s :: post' := by
  rcases List.eq_nil_or_concat post with hp | ⟨post', y, hp⟩
  · left
    subst hp
    have h' : l ++ [x] = pre ++ [s] := h
    have := List.append_inj' h' rfl
    exact ⟨rfl, this.1.symm, (List.singleton_inj.mp this.2).symm⟩
  · right
    subst hp
    have h' : l ++ [x] = (pre ++ s :: post') ++ [y] := by
      rw [h]
      simp [List.concat_eq_append]
    have := List.append_inj' h' rfl
    have hxy : x = y := List.singleton_inj.mp this.2
    exact ⟨post', by simp [List.concat_eq_append, hxy], this.1⟩

theorem separatorsFollowed_nil : SeparatorsFollowed [] := by
  intro pre sep post h
  exact absurd h (by simp)

theorem separatorsPreceded_nil : SeparatorsPreceded [] := by
  intro pre sep post h
  exact absurd h (by simp)

theorem separatorsFollowed_append_normal (l : List MenuParams) (x : MenuParams)
    (hl : SeparatorsFollowed l) (hx : x.type = .normal) : SeparatorsFollowed (l ++ [x]) := by
  intro pre sep post h hsep
  rcases append_singleton_split l pre post x sep h with ⟨_, _, hs⟩ | ⟨post', hp, hl'⟩
  · rw [hs, hx] at hsep
    exact absurd hsep (by decide)
  · obtain ⟨q, rest, hq, hqt, hqp⟩ := hl pre sep post' hl' hsep
    exact ⟨q, rest ++ [x], by rw [hp, hq]; rfl, hqt, hqp⟩

theorem separatorsFollowed_append_separator_normal (l : List MenuParams)
    (sep x : MenuParams) (hl : SeparatorsFollowed l) (hx : x.type = .normal)
    (hp : x.parentId = sep.parentId) : SeparatorsFollowed ((l ++ [sep]) ++ [x]) := by
  intro pre s post h hsep
  rcases append_singleton_split (l ++ [sep]) pre post x s h with
    ⟨_, _, hs⟩ | ⟨post', hpost, hl'⟩
  · rw [hs, hx] at hsep
    exact absurd hsep (by decide)
  · rcases append_singleton_split l pre post' sep s hl' with
      ⟨hnil, _, hs⟩ | ⟨post'', hpost', hl''⟩
    · refine ⟨x, [], ?_, hx, ?_⟩
      · rw [hpost, hnil]
        rfl
      · rw [hs]
        exact hp
    · obtain ⟨q, rest, hq, hqt, hqp⟩ := hl pre s post'' hl'' hsep
      exact ⟨q, rest ++ [sep] ++ [x], by rw [hpost, hpost', hq]; simp, hqt, hqp⟩

theorem separatorsPreceded_append (l : List MenuParams) (x : MenuParams)
    (hl : SeparatorsPreceded l)
    (hx : x.type = .separator →
      (∃ p, x.parentId = some p ∧ inheritedName p = true) ∨
        ∃ n ∈ l, n.type = .normal ∧ n.parentId = x.parentId) :
    SeparatorsPreceded (l ++ [x]) := by
  intro pre sep post h hsep
  rcases append_singleton_split l pre post x sep h with ⟨_, hpre, hs⟩ | ⟨post', _, hl'⟩
  · rw [hs] at hsep ⊢
    rw [hpre]
    exact hx hsep
  · exact hl pre sep post' hl' hsep

theorem menuInvariant_separator (st : RefreshState) (parentId : JSString)
    (params : MenuParams) (count : Nat) (created : List JSString)
    (hinv : MenuInvariant st)
    (happ : (tableGet st.normalItemAppearedIn parentId).getD (inheritedName parentId) = true)
    (htype : params.type = .separator)
    (hparent : params.parentId = (if parentId != [] then some parentId else none)) :
    MenuInvariant
      { mActiveItems := st.mActiveItems
        separatorsCount := count
        normalItemAppearedIn := tableSet st.normalItemAppearedIn parentId false
        createdItems := created
        nextSeparatorIn := tableSet st.nextSeparatorIn parentId params } where
  followed := hinv.followed
  preceded := hinv.preceded
  kept := by
    intro p sep hget
    by_cases hp : p = parentId
    · subst hp
      rw [tableGet_tableSet] at hget
      have hs : params = sep := Option.some.inj hget
      rw [← hs]
      refine ⟨htype, hparent, ?_⟩
      cases hown : tableGet st.normalItemAppearedIn p with
      | none =>
        rw [hown] at happ
        exact Or.inl happ
      | some b =>
        rw [hown] at happ
        have hb : b = true := happ
        rw [hb] at hown
        exact Or.inr (hinv.appeared p hown)
    · rw [tableGet_tableSet_of_ne _ _ _ _ hp] at hget
      exact hinv.kept p sep hget
  appeared := by
    intro p hget
    by_cases hp : p = parentId
    · subst hp
      rw [tableGet_tableSet] at hget
      exact absurd (Option.some.inj hget) (by decide)
    · rw [tableGet_tableSet_of_ne _ _ _ _ hp] at hget
      exact hinv.appeared p hget

theorem menuInvariant_normal (st : RefreshState) (parentId : JSString)
    (params : MenuParams) (count : Nat) (created : List JSString)
    (hinv : MenuInvariant st)
    (hguard : ¬ ((tableGet st.nextSeparatorIn parentId).isNone && inheritedName parentId) = true)
    (htype : params.type = .normal)
    (hparent : params.parentId = (if parentId != [] then some parentId else none)) :
    MenuInvariant
      { mActiveItems :=
          (match tableGet st.nextSeparatorIn parentId with
            | some separator => st.mActiveItems ++ [separator]
            | none => st.mActiveItems) ++ [params]
        separatorsCount := count
        normalItemAppearedIn := tableSet st.normalItemAppearedIn parentId true
        createdItems := created
        nextSeparatorIn := tableDelete st.nextSeparatorIn parentId } := by
  have hmono : ∀ n ∈ st.mActiveItems, n ∈
      (match tableGet st.nextSeparatorIn parentId with
        | some separator => st.mActiveItems ++ [separator]
        | none => st.mActiveItems) ++ [params] := by
    intro n hn
    cases tableGet st.nextSeparatorIn parentId <;> simp [hn]
  have hparams : params ∈
      (match tableGet st.nextSeparatorIn parentId with
        | some separator => st.mActiveItems ++ [separator]
        | none => st.mActiveItems) ++ [params] := by
    simp
  refine ⟨?_, ?_, ?_, ?_⟩
  · cases hsep : tableGet st.nextSeparatorIn parentId with
    | none => exact separatorsFollowed_append_normal _ _ hinv.followed htype
    | some sep =>
      obtain ⟨_, hsp, _⟩ := hinv.kept parentId sep hsep
      exact separatorsFollowed_append_separator_normal _ _ _ hinv.followed htype
        (by rw [hparent, hsp])
  · cases hsep : tableGet st.nextSeparatorIn parentId with
    | none =>
      refine separatorsPreceded_append _ _ hinv.preceded ?_
      intro hs
      rw [htype] at hs
      exact absurd hs (by decide)
    | some sep =>
      obtain ⟨_, hsp, hbefore⟩ := hinv.kept parentId sep hsep
      refine separatorsPreceded_append _ _ (separatorsPreceded_append _ _ hinv.preceded ?_) ?_
      · intro _
        rcases hbefore with hinh | ⟨n, hn, hnt, hnp⟩
        · left
          have hne : (parentId != []) = true := by
            cases parentId with
            | nil => exact absurd hinh (by decide)
            | cons c cs => rfl
          exact ⟨parentId, by rw [hsp, hne]; rfl, hinh⟩
        · exact Or.inr ⟨n, hn, hnt, by rw [hnp, hsp]⟩
      · intro hs
        rw [htype] at hs
        exact absurd hs (by decide)
  · intro p sep hget
    obtain ⟨_, hold⟩ := tableGet_tableDelete _ _ _ _ hget
    obtain ⟨h1, h2, h3⟩ := hinv.kept p sep hold
    refine ⟨h1, h2, ?_⟩
    rcases h3 with h3 | ⟨n, hn, hnt, hnp⟩
    · exact Or.inl h3
    · exact Or.inr ⟨n, hmono n hn, hnt, hnp⟩
  · intro p hget
    by_cases hp : p = parentId
    · subst hp
      exact ⟨params, hparams, htype, hparent⟩
    · rw [tableGet_tableSet_of_ne _ _ _ _ hp] at hget
      obtain ⟨n, hn, hnt, hnp⟩ := hinv.appeared p hget
      exact ⟨n, hmono n hn, hnt, hnp⟩

/-- The closure `registerItem` keeps the invariant of the tables. -/
theorem registerItem_invariant (env : MenuEnv) (st st' : RefreshState) (fullId : JSString)
    (aOptions : ItemOptions) (hinv : MenuInvariant st)
    (h : registerItem env st fullId aOptions = .ok st') : MenuInvariant st' := by
  simp only [registerItem] at h
  generalize (splitSlash fullId).getLast?.getD [] = id at h
  generalize (splitSlash fullId).dropLast.getLast?.getD [] = parentId at h
  split_ifs at h with h1 h2 h3 h4 h5 h6 h7 h8 h9
  all_goals first
    | (cases h; exact hinv)
    | (cases h
       exact menuInvariant_separator st parentId _ _ _ hinv (by simpa using h3) rfl
         (by simp [*]))
    | (cases h
       exact menuInvariant_normal st parentId _ _ _ hinv (by assumption) rfl (by simp [*]))

theorem registerAll_invariant (env : MenuEnv) (items : List (JSString × ItemOptions)) :
    ∀ st st', MenuInvariant st → registerAll env st items = .ok st' → MenuInvariant st' := by
  induction items with
  | nil =>
    intro st st' hinv h
    simp only [registerAll] at h
    cases h
    exact hinv
  | cons x rest ih =>
    intro st st' hinv h
    obtain ⟨id, aOptions⟩ := x
    obtain ⟨s1, h1, h2⟩ := registerAll_cons_ok env st st' id aOptions rest h
    exact ih s1 st' (registerItem_invariant env st s1 id aOptions hinv h1) h2

/-- In the active items of every completed build, every separator is immediately followed by
a normal item with the same parent, and every separator whose parent id is not a name
inherited from `Object.prototype` has a normal item with the same parent before it. -/
theorem buildItems_separators (env : MenuEnv) (otherWindows : List Window)
    (mExtraItems : List (JSString × ExternalMessage)) (st : RefreshState)
    (h : buildItems env otherWindows mExtraItems = .ok st) :
    SeparatorsFollowed st.mActiveItems ∧ SeparatorsPreceded st.mActiveItems := by
  unfold buildItems at h
  have hinit : MenuInvariant
      { mActiveItems := [], separatorsCount := 0, normalItemAppearedIn := [],
        createdItems := [], nextSeparatorIn := [] } :=
    ⟨separatorsFollowed_nil, separatorsPreceded_nil,
      fun p sep hget => absurd hget (by simp [tableGet]),
      fun p hget => absurd hget (by simp [tableGet])⟩
  have hinv := registerAll_invariant env _ _ st hinit h
  exact ⟨hinv.followed, hinv.preceded⟩

theorem separator_id_ne_selection (n : Nat) :
    "separator".toList ++ numberToString n ≠ "selection".toList := by
  intro h
  have h' : 's' :: 'e' :: 'p' :: ("arator".toList ++ numberToString n) =
      's' :: 'e' :: 'l' :: "ection".toList := h
  have h3 := (List.cons.inj (List.cons.inj (List.cons.inj h').2).2).1
  exact absurd h3 (by decide)

theorem registerItem_error (env : MenuEnv) (st : RefreshState) (fullId : JSString)
    (aOptions : ItemOptions) (f : Fault)
    (h : registerItem env st fullId aOptions = .error f) : f = .inheritedName := by
  simp only [registerItem] at h
  split_ifs at h <;> (cases h; rfl)

theorem registerAll_error (env : MenuEnv) (items : List (JSString × ItemOptions)) :
    ∀ st f, registerAll env st items = .error f → f = .inheritedName := by
  induction items with
  | nil =>
    intro st f h
    simp [registerAll] at h
  | cons x rest ih =>
    intro st f h
    obtain ⟨id, aOptions⟩ := x
    simp only [registerAll] at h
    cases h1 : registerItem env st id aOptions with
    | error e =>
      simp only [h1] at h
      cases h
      exact registerItem_error env st id aOptions _ h1
    | ok s1 =>
      simp only [h1] at h
      exact ih s1 f h

/-- With an empty selection, `registerItem` creates nothing as long as every item that has
the option `always` sits under the parent `selection`, and the item `selection` is not
created. -/
theorem registerItem_empty_selection (env : MenuEnv) (st st' : RefreshState)
    (fullId : JSString) (aOptions : ItemOptions) (hsel : env.hasSelection = false)
    (halways : aOptions.always = true →
      (splitSlash fullId).dropLast.getLast?.getD [] = "selection".toList)
    (hempty : st.mActiveItems = []) (hcreated : "selection".toList ∉ st.createdItems)
    (h : registerItem env st fullId aOptions = .ok st') :
    st'.mActiveItems = [] ∧ "selection".toList ∉ st'.createdItems := by
  simp only [registerItem] at h
  generalize (splitSlash fullId).getLast?.getD [] = id at h
  generalize (splitSlash fullId).dropLast.getLast?.getD [] = parentId at h halways
  by_cases h1 : (parentId != [] &&
      !(st.createdItems.contains parentId || inheritedName parentId)) = true
  · rw [if_pos h1] at h
    cases h
    exact ⟨hempty, hcreated⟩
  · rw [if_neg h1] at h
    by_cases h2 : (id.head? == some '-') = true
    · rw [if_pos h2] at h
      split_ifs at h
      all_goals first
        | (cases h; exact ⟨hempty, hcreated⟩)
        | (cases h
           refine ⟨hempty, ?_⟩
           simp only [List.mem_append, List.mem_singleton, not_or]
           exact ⟨hcreated, fun e => separator_id_ne_selection _ e.symm⟩)
    · rw [if_neg h2] at h
      by_cases h3 : (env.visibilities.get? id == some false) = true
      · rw [if_pos h3] at h
        cases h
        exact ⟨hempty, hcreated⟩
      · rw [if_neg h3] at h
        by_cases h4 : (!aOptions.always && !env.hasSelection) = true
        · rw [if_pos h4] at h
          cases h
          exact ⟨hempty, hcreated⟩
        · exfalso
          have ha : aOptions.always = true := by
            rw [hsel] at h4
            simpa using h4
          have hp := halways ha
          apply h1
          rw [hp]
          have hc : st.createdItems.contains "selection".toList = false := by
            simpa using hcreated
          rw [hc]
          decide

theorem registerAll_empty_selection (env : MenuEnv) (hsel : env.hasSelection = false)
    (items : List (JSString × ItemOptions)) :
    ∀ st st',
      (∀ x ∈ items, x.2.always = true →
        (splitSlash x.1).dropLast.getLast?.getD [] = "selection".toList) →
      st.mActiveItems = [] → "selection".toList ∉ st.createdItems →
      registerAll env st items = .ok st' →
      st'.mActiveItems = [] ∧ "selection".toList ∉ st'.createdItems := by
  induction items with
  | nil =>
    intro st st' _ hempty hcreated h
    simp only [registerAll] at h
    cases h
    exact ⟨hempty, hcreated⟩
  | cons x rest ih =>
    intro st st' hall hempty hcreated h
    obtain ⟨id, aOptions⟩ := x
    obtain ⟨s1, h1, h2⟩ := registerAll_cons_ok env st st' id aOptions rest h
    obtain ⟨he1, hc1⟩ := registerItem_empty_selection env st s1 id aOptions hsel
      (hall (id, aOptions) (List.mem_cons_self _ _)) hempty hcreated h1
    exact ih s1 st' (fun y hy => hall y (List.mem_cons_of_mem _ hy)) he1 hc1 h2

/-- With an empty selection, a completed build has no active item when the key of every extra
item that has the option `always` contains no slash. -/
theorem buildItems_empty_selection (env : MenuEnv) (otherWindows : List Window)
    (mExtraItems : List (JSString × ExternalMessage)) (st : RefreshState)
    (hsel : env.hasSelection = false)
    (hkeys : ∀ e ∈ mExtraItems, e.2.always = true → '/' ∉ e.1)
    (h : buildItems env otherWindows mExtraItems = .ok st) : st.mActiveItems = [] := by
  unfold buildItems at h
  refine (registerAll_empty_selection env hsel _ _ st ?_ rfl (by simp) h).1
  intro x hx halways
  simp only [List.mem_append, List.mem_map] at hx
  rcases hx with ((⟨id, _, hid⟩ | ⟨id, _, hid⟩) | ⟨w, _, hw⟩) | ⟨e, he, hext⟩
  · rw [← hid] at halways
    exact absurd halways (by simp)
  · rw [← hid] at halways
    exact absurd halways (by simp)
  · rw [← hw] at halways
    exact absurd halways (by simp)
  · rw [← hext] at halways ⊢
    have hno := hkeys e he halways
    have e1 : "selection/extra:".toList ++ e.1 =
        "selection".toList ++ '/' :: ("extra:".toList ++ e.1) := by
      simp [List.append_assoc]
    have hno' : '/' ∉ "extra:".toList ++ e.1 := by
      intro hm
      rcases List.mem_append.mp hm with hm | hm
      · exact absurd hm (by decide)
      · exact hno hm
    simp only [e1, splitSlash_append_slash _ _ (show '/' ∉ "selection".toList by decide),
      splitSlash_of_no_slash _ hno', List.dropLast_cons₂, List.dropLast_single,
      List.getLast?_singleton, Option.getD_some]

/-- C10, evaluated on the formats `injectedClipboardFormats` with a non-empty selection and
every item visible. The id `clipboard/clipboard:0:x//clipboard:5:foo` built for the only
entry is split into the id `clipboard:5:foo` and the empty parent id, so `refreshItems`
registers the top-level item `clipboard:5:foo` with the label as title. `onClick` on that id
reads the index 5, finds no entry there in the array of one format, and throws a `TypeError`
on `item.format`: no format is handed to `Commands.copyToClipboard`. -/
theorem registered_clipboard_id_click_throws :
    (buildItems (sampleEnv injectedClipboardFormats) [] []).toOption.map
        (fun st => st.mActiveItems.filter (fun p => p.id == "clipboard:5:foo".toList)) =
      some
        [{ id := "clipboard:5:foo".toList, type := .normal,
           title := some "x//clipboard:5:foo".toList,
           contexts := ["page".toList, "tab".toList], parentId := none }] ∧
    onClick injectedClipboardFormats "clipboard:5:foo".toList = .error .typeError := by
  refine ⟨by decide, ?_⟩
  rfl

end MTH
